import Mathlib

/-!
Verification development for the per-package RBI generator
(`packager/rbi_gen.cc`).  The C++ code is shallowly embedded: the
read-only symbol graph is an abstract structure of total functions, the
exporter's mutable per-package state (`emittedSymbols`,
`referencedPackages`, `referencedRBIs`, `toEmit`) is threaded
explicitly, and the recursive owner-chain walks take a fuel parameter
(the C++ code assumes owner chains reach the root; fuel exhaustion is
an explicit error value).  Exceptions (`Exception::raise`) and fuel
exhaustion are modelled with `Except`.
-/

namespace RBIGen

/-- Symbols are opaque handles into the external symbol graph
(`core::SymbolRef`). -/
abbrev Sym := Nat

/-- File handles (`core::FileRef`). -/
abbrev FileRef := Nat

/-- The kinds of `core::SymbolRef` dispatched on in `emitLoop`. -/
inductive SymKind where
  | classOrModule
  | method
  | fieldOrStaticField
  | typeMember
  | typeArgument
deriving DecidableEq

/-- Abnormal termination: `outOfFuel` stands for a diverging owner walk
(impossible in the real symbol graph), the other two are the
`Exception::raise` calls in `emit(ClassOrModuleRef)` and
`tryEmitDefDelegator`. -/
inductive GenErr where
  | outOfFuel
  | invalidKlass
  | invalidDelegator
deriving DecidableEq, Repr

/-- The read-only symbol graph and file table (`core::GlobalState`),
restricted to the queries `rbi_gen.cc` performs.  `refs s` abstracts the
set of symbols fed to `maybeEmit` while rendering `s`'s declaration
(superclass, mixins, and every symbol embedded in the types of its
signature, as collected by `enqueueSymbolsInType`). -/
structure SymGraph where
  root : Sym
  packageRegistry : Sym
  owner : Sym → Sym
  kind : Sym → SymKind
  isSingletonClass : Sym → Bool
  attachedClass : Sym → Sym
  superClass : Sym → Sym
  tEnum : Sym
  locExists : Sym → Bool
  locFile : Sym → FileRef
  fileIsRBI : FileRef → Bool
  fileIsPayload : FileRef → Bool
  refs : Sym → List Sym
  findMember : Sym → String → Option Sym
  argNames : Sym → List String
  showName : Sym → String
  nameIsStaticInit : Sym → Bool
  nameStartsWithLt : Sym → Bool
  nameIsAttachedClass : Sym → Bool

/-- `SymbolRef::isClassOrModule()`. -/
def SymGraph.isClassOrModule (g : SymGraph) (s : Sym) : Bool :=
  g.kind s == SymKind.classOrModule

/-- The per-package configuration of `RBIExporter`: the package's own
production and test namespace roots and the global set of known package
namespace roots. -/
structure PkgCtx where
  gs : SymGraph
  pkgNamespace : Sym
  pkgTestNamespace : Sym
  pkgNamespaces : List Sym

/-- The mutable per-package generation state of `RBIExporter`:
the visited set `emittedSymbols`, the dependency accumulators
`referencedPackages` (package namespace → blaming symbol) and
`referencedRBIs`, and the rendering worklist `toEmit` (a stack:
push back, pop back). -/
structure ExpState where
  emittedSymbols : List Sym
  referencedPackages : List (Sym × Sym)
  referencedRBIs : List FileRef
  toEmit : List Sym
deriving DecidableEq, Repr

/-- Fresh state at `RBIExporter` construction. -/
def initExpState : ExpState := ⟨[], [], [], []⟩

/-- Insertion into an `UnorderedSet` of symbols: no-op when present. -/
def symInsert (l : List Sym) (x : Sym) : List Sym :=
  if l.contains x then l else l ++ [x]

/-- Insertion into an `UnorderedSet` of files: no-op when present. -/
def setInsert (l : List FileRef) (x : FileRef) : List FileRef :=
  if l.contains x then l else l ++ [x]

/-- `UnorderedMap::operator[]` assignment `m[k] = v`: overwrite the
value when the key is present, append a fresh entry otherwise. -/
def mapInsert (m : List (Sym × Sym)) (k v : Sym) : List (Sym × Sym) :=
  if (m.map Prod.fst).contains k then
    m.map (fun p => if p.1 = k then (k, v) else p)
  else m ++ [(k, v)]

/-- Lookup in the association-list model of an `UnorderedMap`. -/
def mapLookup (m : List (Sym × Sym)) (k : Sym) : Option Sym :=
  match m with
  | [] => none
  | q :: rest => if q.1 = k then some q.2 else mapLookup rest k

/-- `lookupFQN`'s loop body: walk name segments from a scope through
`findMemberNoDealias`, failing (returning the non-existent symbol,
modelled as `none`) when a segment is missing or the scope is not a
class or module. -/
def lookupFQNGo (g : SymGraph) : Sym → List String → Option Sym
  | scope, [] => some scope
  | scope, name :: rest =>
    if g.isClassOrModule scope then
      match g.findMember scope name with
      | none => none
      | some result => lookupFQNGo g result rest
    else none

/-- `lookupFQN` (rbi_gen.cc:129): resolve a fully-qualified name path
starting at the root symbol. -/
def lookupFQN (g : SymGraph) (fqn : List String) : Option Sym :=
  lookupFQNGo g g.root fqn

/-- Result of classifying a symbol by walking its owner chain: the walk
stops at this package's production namespace, this package's test
namespace, another known package namespace, or the global root /
package registry (unpackaged). -/
inductive WalkRes where
  | inPkgProd
  | inPkgTest
  | foreign (p : Sym)
  | unpackaged
deriving DecidableEq, Repr

/-- The pure owner-chain classification performed by both
`isInPackage` and `isInTestPackage`: at each symbol, check (in the
source's order) for the root/registry, this package's namespaces, then
any other known package namespace, and otherwise step to the owner. -/
def ownerWalk (ctx : PkgCtx) : Nat → Sym → Except GenErr WalkRes
  | 0, _ => .error .outOfFuel
  | fuel + 1, s =>
    if s = ctx.gs.root ∨ s = ctx.gs.packageRegistry then .ok .unpackaged
    else if s = ctx.pkgNamespace then .ok .inPkgProd
    else if s = ctx.pkgTestNamespace then .ok .inPkgTest
    else if ctx.gs.isClassOrModule s && ctx.pkgNamespaces.contains s then .ok (.foreign s)
    else ownerWalk ctx fuel (ctx.gs.owner s)

/-- `RBIExporter::isInPackage` (rbi_gen.cc:519): the ownership walk
with its side effects.  Reaching the root records the original symbol's
file in `referencedRBIs` when it is a non-payload RBI; reaching a
foreign known package namespace records `referencedPackages[pkg] =
original`. -/
def isInPackage (ctx : PkgCtx) : Nat → Sym → Sym → ExpState → Except GenErr (Bool × ExpState)
  | 0, _, _, _ => .error .outOfFuel
  | fuel + 1, sym, original, st =>
    if sym = ctx.gs.root ∨ sym = ctx.gs.packageRegistry then
      if ctx.gs.locExists original && ctx.gs.fileIsRBI (ctx.gs.locFile original)
          && !ctx.gs.fileIsPayload (ctx.gs.locFile original) then
        .ok (false, { st with referencedRBIs := setInsert st.referencedRBIs (ctx.gs.locFile original) })
      else .ok (false, st)
    else if sym = ctx.pkgNamespace ∨ sym = ctx.pkgTestNamespace then .ok (true, st)
    else if ctx.gs.isClassOrModule sym && ctx.pkgNamespaces.contains sym then
      .ok (false, { st with referencedPackages := mapInsert st.referencedPackages sym original })
    else isInPackage ctx fuel (ctx.gs.owner sym) original st

/-- `RBIExporter::isInTestPackage` (rbi_gen.cc:501): the pure ownership
walk distinguishing the test namespace from everything else. -/
def isInTestPackage (ctx : PkgCtx) : Nat → Sym → Except GenErr Bool
  | 0, _ => .error .outOfFuel
  | fuel + 1, sym =>
    if sym = ctx.gs.root ∨ sym = ctx.gs.packageRegistry then .ok false
    else if sym = ctx.pkgNamespace then .ok false
    else if sym = ctx.pkgTestNamespace then .ok true
    else if ctx.gs.isClassOrModule sym && ctx.pkgNamespaces.contains sym then .ok false
    else isInTestPackage ctx fuel (ctx.gs.owner sym)

/-- `RBIExporter::maybeEmit` (rbi_gen.cc:158): redirect singleton
classes to their attached class; otherwise, when the symbol has not
been visited and the ownership walk accepts it, mark it visited and
push it on the rendering worklist. -/
def maybeEmit (ctx : PkgCtx) : Nat → Sym → ExpState → Except GenErr ExpState
  | 0, _, _ => .error .outOfFuel
  | fuel + 1, symbol, st =>
    if ctx.gs.isClassOrModule symbol && ctx.gs.isSingletonClass symbol then
      maybeEmit ctx fuel (ctx.gs.attachedClass symbol) st
    else if st.emittedSymbols.contains symbol then .ok st
    else
      match isInPackage ctx fuel symbol symbol st with
      | .error e => .error e
      | .ok (true, st1) =>
        .ok { st1 with emittedSymbols := symInsert st1.emittedSymbols symbol,
                       toEmit := st1.toEmit ++ [symbol] }
      | .ok (false, st1) => .ok st1

/-- Feed a list of symbols to `maybeEmit` in order (used for export
roots and for the symbol references discovered while rendering a
declaration). -/
def maybeEmitAll (ctx : PkgCtx) (fuel : Nat) : List Sym → ExpState → Except GenErr ExpState
  | [], st => .ok st
  | r :: rest, st =>
    match maybeEmit ctx fuel r st with
    | .error e => .error e
    | .ok st1 => maybeEmitAll ctx fuel rest st1

/-- The boolean `isInPackage` returns for each walk classification. -/
def pkgBool : WalkRes → Bool
  | .inPkgProd => true
  | .inPkgTest => true
  | .foreign _ => false
  | .unpackaged => false

/-- The state `isInPackage` leaves for each walk classification of a
symbol `original`. -/
def pkgState (ctx : PkgCtx) (r : WalkRes) (original : Sym) (st : ExpState) : ExpState :=
  match r with
  | .inPkgProd => st
  | .inPkgTest => st
  | .foreign p => { st with referencedPackages := mapInsert st.referencedPackages p original }
  | .unpackaged =>
    if ctx.gs.locExists original && ctx.gs.fileIsRBI (ctx.gs.locFile original)
        && !ctx.gs.fileIsPayload (ctx.gs.locFile original) then
      { st with referencedRBIs := setInsert st.referencedRBIs (ctx.gs.locFile original) }
    else st

/-- The boolean `isInTestPackage` returns for each walk
classification. -/
def testBool : WalkRes → Bool
  | .inPkgTest => true
  | _ => false

/-- The ASCII whitespace characters stripped by
`absl::StripAsciiWhitespace`. -/
def isAsciiWs (c : Char) : Bool :=
  c == ' ' || c == '\t' || c == '\n' || c == Char.ofNat 11 || c == Char.ofNat 12 || c == '\r'

/-- `absl::StripAsciiWhitespace`: drop ASCII whitespace from both
ends. -/
def stripAsciiWhitespace (s : String) : String :=
  ⟨((s.data.dropWhile isAsciiWs).reverse.dropWhile isAsciiWs).reverse⟩

/-- `absl::StartsWith`. -/
def strStartsWith (s pat : String) : Bool :=
  pat.data.isPrefixOf s.data

/-- The delimiter set of `absl::ByAnyChar(" \n(),")` used to split a
captured `def_delegators` declaration. -/
def delimChars : List Char := [' ', '\n', '(', ')', ',']

/-- Splitting on any delimiter character, keeping empty components
(`absl::StrSplit` semantics). -/
def splitCharsAux : List Char → List Char → List (List Char)
  | [], acc => [acc.reverse]
  | c :: rest, acc =>
    if delimChars.contains c then acc.reverse :: splitCharsAux rest []
    else splitCharsAux rest (c :: acc)

/-- Split a string into components on the delegation delimiter set. -/
def splitComponents (s : String) : List String :=
  (splitCharsAux s.data []).map (fun l => ⟨l⟩)

/-- The scan of `tryEmitDefDelegator` over the components after the
first: the first component whose stripped form is non-empty is the
delegation receiver expression. -/
def findTargetAfterFirst : List String → Option String
  | [] => none
  | c :: rest =>
    let s := stripAsciiWhitespace c
    if s.isEmpty then findTargetAfterFirst rest else some s

/-- Outcome of `RBIExporter::tryEmitDefDelegator`: not a delegation
(return false), a single emitted directive line (return true), or the
`Exception::raise("Invalid def_delegator!")` case. -/
inductive DelegatorResult where
  | notDelegator
  | emitted (line : String)
  | invalidDelegator
deriving DecidableEq, Repr

/-- `RBIExporter::tryEmitDefDelegator` (rbi_gen.cc:169): recognize a
method whose first formal parameter name begins with `def_delegator`;
a plural `def_delegators` declaration is desugared to one
single-target directive naming the receiver (the first non-empty
component after the split head) and the current method's own name,
while a singular declaration is re-emitted verbatim. -/
def tryEmitDefDelegator (argNameList : List String) (methodName : String) : DelegatorResult :=
  match argNameList with
  | [] => .notDelegator
  | argName :: _ =>
    if !strStartsWith argName "def_delegator" then .notDelegator
    else if strStartsWith argName "def_delegators" then
      match findTargetAfterFirst (splitComponents argName).tail with
      | some t => .emitted ("def_delegator " ++ t ++ ", :" ++ methodName)
      | none => .invalidDelegator
    else .emitted argName

/-- Join strings with a separator (`fmt::join`). -/
def joinSep : List String → String → String
  | [], _ => ""
  | [x], _ => x
  | x :: y :: rest, sep => x ++ sep ++ joinSep (y :: rest) sep

/-- One formal parameter of a method signature as the renderer sees
it: argument name, the rendered type, and whether it is the synthetic
block argument (skipped by the printer). -/
structure SigArg where
  name : String
  typeStr : String
  isSyntheticBlockArgument : Bool
deriving DecidableEq

/-- The data of a resolved method that `prettySigForMethod` consumes,
with types abstracted to their rendered text. -/
structure MethodSigData where
  isFinal : Bool
  isAbstract : Bool
  isOverridable : Bool
  isOverride : Bool
  typeArguments : List String
  args : List SigArg
  returnIsVoid : Bool
  returnTypeStr : String
deriving DecidableEq

/-- The `sig` call head: `sig(:final)` for final methods. -/
def sigCallOf (m : MethodSigData) : String :=
  if m.isFinal then "sig(:final)" else "sig"

/-- The modifier list built in source order: abstract, overridable,
override. -/
def sigFlags (m : MethodSigData) : List String :=
  (if m.isAbstract then ["abstract"] else [])
    ++ (if m.isOverridable then ["overridable"] else [])
    ++ (if m.isOverride then ["override"] else [])

/-- `typeAndArgNames`: one `name: type` entry per non-synthetic formal
parameter. -/
def sigParams (m : MethodSigData) : List String :=
  (m.args.filter (fun a => !a.isSyntheticBlockArgument)).map
    (fun a => a.name ++ ": " ++ a.typeStr)

/-- The rendered return type: the `void` sentinel or a `returns(...)`
wrapper. -/
def sigReturn (m : MethodSigData) : String :=
  if m.returnIsVoid then "void" else "returns(" ++ m.returnTypeStr ++ ")"

/-- The single-line signature rendering of `prettySigForMethod`. -/
def sigOneline (m : MethodSigData) : String :=
  let flagString := if (sigFlags m).isEmpty then "" else joinSep (sigFlags m) "." ++ "."
  let typeParamsString :=
    if m.typeArguments.isEmpty then ""
    else "type_parameters(" ++ joinSep (m.typeArguments.map (fun t => ":" ++ t)) ", " ++ ")."
  let paramsString :=
    if (sigParams m).isEmpty then "" else "params(" ++ joinSep (sigParams m) ", " ++ ")."
  sigCallOf m ++ (" \x7b" ++ (flagString ++ typeParamsString ++ paramsString ++ sigReturn m ++ "\x7d"))

/-- The multi-line signature rendering of `prettySigForMethod`: a
`do ... end` block with one parameter per line and chained trailing
modifiers. -/
def sigMultiline (m : MethodSigData) : String :=
  let flagString := if (sigFlags m).isEmpty then "" else joinSep (sigFlags m) "\n  ." ++ "\n  ."
  let typeParamsString :=
    if m.typeArguments.isEmpty then ""
    else "type_parameters(" ++ joinSep (m.typeArguments.map (fun t => ":" ++ t)) ", " ++ ")\n  ."
  let paramsString :=
    if (sigParams m).isEmpty then ""
    else "params(\n    " ++ joinSep (sigParams m) ",\n    " ++ "\n  )\n  ."
  sigCallOf m ++ (" do\n  " ++ (flagString ++ typeParamsString ++ paramsString ++ sigReturn m ++ "\nend"))

/-- `MAX_PRETTY_SIG_ARGS` (rbi_gen.cc:125). -/
def MAX_PRETTY_SIG_ARGS : Nat := 4

/-- `MAX_PRETTY_WIDTH` (rbi_gen.cc:127). -/
def MAX_PRETTY_WIDTH : Nat := 80

/-- `RBIExporter::prettySigForMethod` (rbi_gen.cc:220), layout
decision at line 278: the single-line rendering is kept when it is at
most 80 characters wide and there are at most 4 printed parameters;
otherwise the multi-line form is produced. -/
def prettySigForMethod (m : MethodSigData) : String :=
  if (sigOneline m).length ≤ MAX_PRETTY_WIDTH ∧ (sigParams m).length ≤ MAX_PRETTY_SIG_ARGS then
    sigOneline m
  else sigMultiline m

/-- One keyword-constructor parameter of a struct initializer as
`maybeEmitStructProps` consumes it. -/
structure SArg where
  name : String
  isKeyword : Bool
  isDefault : Bool
  isSyntheticBlock : Bool
  typeStr : String
deriving DecidableEq

/-- `RBIExporter::emitProp` (rbi_gen.cc:561): render one `const`/`prop`
declaration, with the synthesized unsafe-default expression appended
when the parameter has a default value. -/
def emitProp (name typeStr : String) (isConst hasDefault : Bool) : String :=
  (if isConst then "const" else "prop") ++ " :" ++ name ++ ", " ++ typeStr
    ++ (if hasDefault then ", default: T.let(T.unsafe(nil), " ++ typeStr ++ ")" else "")

/-- `RBIExporter::removePropField` (rbi_gen.cc:567): remove the backing
field `@name` from the pending-field list. -/
def removePropField (fields : List String) (name : String) : List String :=
  fields.filter (fun f => f ≠ "@" ++ name)

/-- `RBIExporter::removePropMethods` (rbi_gen.cc:575): remove the
methods named `name` and `name=` from the pending-method list; the
`isConst` flag is cleared exactly when a `name=` setter was present. -/
def removePropMethods (methods : List String) (name : String) (isConst : Bool) :
    List String × Bool :=
  (methods.filter (fun m => m ≠ name ++ "=" && m ≠ name),
   isConst && !methods.contains (name ++ "="))

/-- The loop of `RBIExporter::maybeEmitStructProps` (rbi_gen.cc:593):
for each keyword, non-synthetic constructor parameter, remove the
matching getter/setter methods and backing field and emit one property
declaration (`const` when no setter existed).  Returns the property
lines together with the remaining pending methods and fields (which
the source goes on to emit as ordinary definitions). -/
def maybeEmitStructProps : List SArg → List String → List String →
    List String × List String × List String
  | [], methods, fields => ([], methods, fields)
  | arg :: rest, methods, fields =>
    if arg.isSyntheticBlock || !arg.isKeyword then maybeEmitStructProps rest methods fields
    else
      let hasDefault := arg.isDefault
      let mc := removePropMethods methods arg.name true
      let fields1 := removePropField fields arg.name
      let r := maybeEmitStructProps rest mc.1 fields1
      (emitProp arg.name arg.typeStr mc.2 hasDefault :: r.1, r.2)

/-- The keyword, non-synthetic constructor parameters that drive the
struct-property loop. -/
def structPropsKw (args : List SArg) : List SArg :=
  args.filter (fun a => !a.isSyntheticBlock && a.isKeyword)

/-- `RBIExporter::emit(MethodRef, fields)` entry (rbi_gen.cc:923):
skip when already visited or `<static-init>`, insert into the visited
set, then skip internal `<`-named methods, handle delegations, and
otherwise render the signature/definition (enqueuing the symbols its
types reference).  The rendered text is abstracted to the singleton
declaration list `[s]`. -/
def emitMethodEntry (ctx : PkgCtx) (fuel : Nat) (s : Sym) (st : ExpState) :
    Except GenErr (ExpState × List Sym) :=
  if st.emittedSymbols.contains s then .ok (st, [])
  else if ctx.gs.nameIsStaticInit s then .ok (st, [])
  else
    let st1 := { st with emittedSymbols := symInsert st.emittedSymbols s }
    if ctx.gs.nameStartsWithLt s then .ok (st1, [])
    else
      match tryEmitDefDelegator (ctx.gs.argNames s) (ctx.gs.showName s) with
      | .invalidDelegator => .error .invalidDelegator
      | .emitted _ => .ok (st1, [s])
      | .notDelegator =>
        match maybeEmitAll ctx fuel (ctx.gs.refs s) st1 with
        | .error e => .error e
        | .ok st2 => .ok (st2, [s])

/-- `RBIExporter::emit(TypeMemberRef)` entry (rbi_gen.cc:1007): skip
when already visited, insert into the visited set, skip the
`<AttachedClass>` member, and otherwise render the
type_member/type_template line. -/
def emitTypeMemberEntry (ctx : PkgCtx) (fuel : Nat) (s : Sym) (st : ExpState) :
    Except GenErr (ExpState × List Sym) :=
  if st.emittedSymbols.contains s then .ok (st, [])
  else
    let st1 := { st with emittedSymbols := symInsert st.emittedSymbols s }
    if ctx.gs.nameIsAttachedClass s then .ok (st1, [])
    else
      match maybeEmitAll ctx fuel (ctx.gs.refs s) st1 with
      | .error e => .error e
      | .ok st2 => .ok (st2, [s])

/-- One `emitLoop` dispatch step (rbi_gen.cc:1032) on a popped symbol.
A class first re-runs the ownership guard of `emit(ClassOrModuleRef)`
(rbi_gen.cc:658), raising `Invalid klass` for a foreign or unvisited
class, then skips TEnum-rewriter value classes and internal `<`-named
classes, and otherwise renders its block (abstracted to `[s]`) while
enqueuing the symbols the block references.  Type members and type
arguments popped from the worklist are ignored, as in the source. -/
def emitOne (ctx : PkgCtx) (fuel : Nat) (s : Sym) (st : ExpState) :
    Except GenErr (ExpState × List Sym) :=
  match ctx.gs.kind s with
  | .classOrModule =>
    match isInPackage ctx fuel s s st with
    | .error e => .error e
    | .ok (inPkg, st1) =>
      if !inPkg || !st1.emittedSymbols.contains s then .error .invalidKlass
      else if ctx.gs.superClass (ctx.gs.superClass s) = ctx.gs.tEnum then .ok (st1, [])
      else if ctx.gs.nameStartsWithLt s then .ok (st1, [])
      else
        match maybeEmitAll ctx fuel (ctx.gs.refs s) st1 with
        | .error e => .error e
        | .ok st2 => .ok (st2, [s])
  | .method => emitMethodEntry ctx fuel s st
  | .fieldOrStaticField =>
    match maybeEmitAll ctx fuel (ctx.gs.refs s) st with
    | .error e => .error e
    | .ok st2 => .ok (st2, [s])
  | .typeMember => .ok (st, [])
  | .typeArgument => .ok (st, [])

/-- `RBIExporter::emitLoop` (rbi_gen.cc:1027): drain the worklist with
stack discipline, accumulating the emitted declarations. -/
def emitLoop (ctx : PkgCtx) : Nat → ExpState → List Sym → Except GenErr (ExpState × List Sym)
  | 0, _, _ => .error .outOfFuel
  | fuel + 1, st, acc =>
    match st.toEmit.getLast? with
    | none => .ok (st, acc)
    | some s =>
      match emitOne ctx fuel s { st with toEmit := st.toEmit.dropLast } with
      | .error e => .error e
      | .ok (st1, ds) => emitLoop ctx fuel st1 (acc ++ ds)

/-- The three ways generation code enters the visited set: enqueuing
through `maybeEmit`, and the guarded method / type-member emission
entry points. -/
inductive GenOp where
  | enq (s : Sym)
  | method (s : Sym)
  | typeMember (s : Sym)

/-- Run one generation operation over the state and the declaration
list; an abnormal outcome (exception or fuel) leaves the state
unchanged, since the real program aborts there. -/
def runOp (ctx : PkgCtx) (fuel : Nat) (p : ExpState × List Sym) (op : GenOp) :
    ExpState × List Sym :=
  match op with
  | .enq s =>
    match maybeEmit ctx fuel s p.1 with
    | .ok st1 => (st1, p.2)
    | .error _ => p
  | .method s =>
    match emitMethodEntry ctx fuel s p.1 with
    | .ok (st1, ds) => (st1, p.2 ++ ds)
    | .error _ => p
  | .typeMember s =>
    match emitTypeMemberEntry ctx fuel s p.1 with
    | .ok (st1, ds) => (st1, p.2 ++ ds)
    | .error _ => p

/-- Run a trace of generation operations from the fresh per-package
state. -/
def runOps (ctx : PkgCtx) (fuel : Nat) (ops : List GenOp) : ExpState × List Sym :=
  ops.foldl (runOp ctx fuel) (initExpState, [])

/-- The worklist invariant: the worklist has no duplicates and
everything on it is already in the visited set. -/
def InvE (st : ExpState) : Prop :=
  st.toEmit.Nodup ∧ ∀ s ∈ st.toEmit, s ∈ st.emittedSymbols

/-- The worklist/visited-set invariant of one generation pass: the
worklist has no duplicates, everything on it is visited, the emitted
declarations are pairwise distinct, and every declared symbol is
visited. -/
def GenInv (p : ExpState × List Sym) : Prop :=
  InvE p.1 ∧ p.2.Nodup ∧ (∀ s ∈ p.2, s ∈ p.1.emittedSymbols)

/-- The export-resolution loop over `pkg.exports()` (rbi_gen.cc:1078):
unresolvable name paths are skipped, resolved symbols are routed to the
test or production export list by `isInTestPackage`. -/
def resolveExportsLoop (ctx : PkgCtx) (fuel : Nat) :
    List (List String) → List Sym → List Sym → Except GenErr (List Sym × List Sym)
  | [], ex, tex => .ok (ex, tex)
  | e :: rest, ex, tex =>
    match lookupFQN ctx.gs e with
    | none => resolveExportsLoop ctx fuel rest ex tex
    | some s =>
      match isInTestPackage ctx fuel s with
      | .error err => .error err
      | .ok true => resolveExportsLoop ctx fuel rest ex (tex ++ [s])
      | .ok false => resolveExportsLoop ctx fuel rest (ex ++ [s]) tex

/-- The loop over `pkg.testExports()` (rbi_gen.cc:1090): unresolvable
paths are skipped, resolved symbols are appended to the test export
list. -/
def resolveTestExportsLoop (g : SymGraph) : List (List String) → List Sym → List Sym
  | [], tex => tex
  | e :: rest, tex =>
    match lookupFQN g e with
    | none => resolveTestExportsLoop g rest tex
    | some s => resolveTestExportsLoop g rest (tex ++ [s])

/-- Resolve both export lists, as `RBIExporter::emit` does before the
generation phases. -/
def resolveAllExports (ctx : PkgCtx) (fuel : Nat)
    (rawExports rawTestExports : List (List String)) :
    Except GenErr (List Sym × List Sym) :=
  match resolveExportsLoop ctx fuel rawExports [] [] with
  | .error e => .error e
  | .ok (ex, tex0) => .ok (ex, resolveTestExportsLoop ctx.gs rawTestExports tex0)

/-- The serialized dependency manifest content: the referenced package
namespaces (the map's keys, as printed by `QuoteStringNameFormatter`)
and the referenced legacy RBI files. -/
def manifestOf (st : ExpState) : List Sym × List FileRef :=
  (st.referencedPackages.map Prod.fst, st.referencedRBIs)

/-- The production half of `RBIExporter::emit` (rbi_gen.cc:1097): when
the production export list is non-empty, enqueue the roots, drain the
worklist, and capture the stub (declaration list) and the manifest. -/
def prodPhase (ctx : PkgCtx) (fuel : Nat) (exports : List Sym) :
    Except GenErr (ExpState × Option (List Sym) × Option (List Sym × List FileRef)) :=
  if exports.isEmpty then .ok (initExpState, none, none)
  else
    match maybeEmitAll ctx fuel exports initExpState with
    | .error e => .error e
    | .ok st1 =>
      match emitLoop ctx fuel st1 [] with
      | .error e => .error e
      | .ok (st2, decls) => .ok (st2, some decls, some (manifestOf st2))

/-- The test half of `RBIExporter::emit` (rbi_gen.cc:1113): run from
the state the production phase left behind (the accumulators are
shared, the output buffer was drained by `toString`), and capture the
test stub and manifest only when the test pass printed anything. -/
def testPhase (ctx : PkgCtx) (fuel : Nat) (testExports : List Sym) (st : ExpState) :
    Except GenErr (ExpState × Option (List Sym) × Option (List Sym × List FileRef)) :=
  if testExports.isEmpty then .ok (st, none, none)
  else
    match maybeEmitAll ctx fuel testExports st with
    | .error e => .error e
    | .ok st3 =>
      match emitLoop ctx fuel st3 [] with
      | .error e => .error e
      | .ok (st4, tdecls) =>
        if tdecls.isEmpty then .ok (st4, none, none)
        else .ok (st4, some tdecls, some (manifestOf st4))

/-- The four artifacts of one package's generation run: production
stub and manifest, test stub and manifest, each present only when
produced. -/
structure RBIOutput where
  rbi : Option (List Sym)
  deps : Option (List Sym × List FileRef)
  testRBI : Option (List Sym)
  testDeps : Option (List Sym × List FileRef)
deriving DecidableEq, Repr

/-- `RBIExporter::emit` (rbi_gen.cc:1068): resolve the exports, run
the production phase, then the test phase, sharing one state. -/
def exporterEmit (ctx : PkgCtx) (fuel : Nat)
    (rawExports rawTestExports : List (List String)) : Except GenErr RBIOutput :=
  match resolveAllExports ctx fuel rawExports rawTestExports with
  | .error e => .error e
  | .ok (exports, testExports) =>
    match prodPhase ctx fuel exports with
    | .error e => .error e
    | .ok (stP, rbi, deps) =>
      match testPhase ctx fuel testExports stP with
      | .error e => .error e
      | .ok (_, tRbi, tDeps) => .ok ⟨rbi, deps, tRbi, tDeps⟩

/-- Monotone growth of the dependency accumulators and visited set:
generation only ever inserts. -/
def expLE (st st1 : ExpState) : Prop :=
  (∀ p ∈ st.referencedPackages.map Prod.fst, p ∈ st1.referencedPackages.map Prod.fst) ∧
    (∀ f ∈ st.referencedRBIs, f ∈ st1.referencedRBIs) ∧
    (∀ s ∈ st.emittedSymbols, s ∈ st1.emittedSymbols)

/-- A small concrete symbol graph used to instantiate the theorems:
symbol 0 is the root, 1 the package registry; 2 is the package
namespace `Foo`, 3 its test namespace `Test::Foo` (under the plain
`Test` module 6), 4 a foreign package namespace `Bar`; 7 (`Foo::X`)
references the foreign class 8 (`Bar::Y`); 9 (`Test::Foo::E`) is a
test-namespace class; 10 is an unpackaged class defined in the legacy
RBI file 1; 11 (`Foo::Z`) references the test class 9. -/
def gDemo : SymGraph where
  root := 0
  packageRegistry := 1
  owner := fun s =>
    match s with
    | 7 => 2
    | 11 => 2
    | 8 => 4
    | 9 => 3
    | 3 => 6
    | _ => 0
  kind := fun _ => SymKind.classOrModule
  isSingletonClass := fun _ => false
  attachedClass := fun s => s
  superClass := fun _ => 0
  tEnum := 99
  locExists := fun s => s == 10
  locFile := fun _ => 1
  fileIsRBI := fun f => f == 1
  fileIsPayload := fun _ => false
  refs := fun s =>
    match s with
    | 7 => [8]
    | 11 => [9]
    | _ => []
  findMember := fun s n =>
    match s, n with
    | 0, "Foo" => some 2
    | 0, "Test" => some 6
    | 0, "Bar" => some 4
    | 6, "Foo" => some 3
    | 2, "X" => some 7
    | 2, "Z" => some 11
    | 3, "E" => some 9
    | _, _ => none
  argNames := fun _ => []
  showName := fun _ => ""
  nameIsStaticInit := fun _ => false
  nameStartsWithLt := fun _ => false
  nameIsAttachedClass := fun _ => false

/-- The exporter context for package `Foo` over the demo graph. -/
def ctxDemo : PkgCtx where
  gs := gDemo
  pkgNamespace := 2
  pkgTestNamespace := 3
  pkgNamespaces := [2, 3, 4]

/-! ## Helper lemmas about the container models -/

theorem contains_mem {α : Type} [BEq α] [LawfulBEq α] (l : List α) (a : α) :
    l.contains a = true ↔ a ∈ l :=
  List.elem_iff

theorem symInsert_self (l : List Sym) (x : Sym) : x ∈ symInsert l x := by
  unfold symInsert
  split
  · exact (contains_mem l x).mp (by assumption)
  · simp

theorem symInsert_mono {l : List Sym} {y : Sym} (x : Sym) (h : y ∈ l) : y ∈ symInsert l x := by
  unfold symInsert
  split <;> simp [h]

theorem setInsert_mono {l : List FileRef} {y : FileRef} (x : FileRef) (h : y ∈ l) :
    y ∈ setInsert l x := by
  unfold setInsert
  split <;> simp [h]

theorem setInsert_of_mem {l : List FileRef} {x : FileRef} (h : x ∈ l) : setInsert l x = l := by
  unfold setInsert
  rw [if_pos ((contains_mem l x).mpr h)]

theorem setInsert_nodup {l : List FileRef} {x : FileRef} (h : l.Nodup) :
    (setInsert l x).Nodup := by
  unfold setInsert
  split
  · exact h
  · have hx : x ∉ l := fun hm => (by assumption : ¬l.contains x = true) ((contains_mem l x).mpr hm)
    simp [List.nodup_append, h, hx]

theorem mapLookup_replace (k v : Sym) :
    ∀ m : List (Sym × Sym), k ∈ m.map Prod.fst →
      mapLookup (m.map (fun p => if p.1 = k then (k, v) else p)) k = some v
  | [], h => by simp at h
  | p :: rest, h => by
    by_cases hk : p.1 = k
    · simp [List.map_cons, if_pos hk, mapLookup]
    · have h2 : k ∈ rest.map Prod.fst := by
        simp only [List.map_cons, List.mem_cons] at h
        tauto
      simp only [List.map_cons, if_neg hk, mapLookup, if_neg hk]
      exact mapLookup_replace k v rest h2

theorem mapLookup_append (k v : Sym) :
    ∀ m : List (Sym × Sym), k ∉ m.map Prod.fst → mapLookup (m ++ [(k, v)]) k = some v
  | [], _ => by simp [mapLookup]
  | p :: rest, h => by
    have hk : ¬p.1 = k := by
      simp only [List.map_cons, List.mem_cons] at h
      tauto
    simp only [List.cons_append, mapLookup, if_neg hk]
    exact mapLookup_append k v rest (by
      simp only [List.map_cons, List.mem_cons] at h
      tauto)

theorem mapLookup_mapInsert_self (m : List (Sym × Sym)) (k v : Sym) :
    mapLookup (mapInsert m k v) k = some v := by
  unfold mapInsert
  by_cases h : (m.map Prod.fst).contains k = true
  · rw [if_pos h]
    exact mapLookup_replace k v m ((contains_mem _ k).mp h)
  · rw [if_neg h]
    exact mapLookup_append k v m (fun hm => h ((contains_mem _ k).mpr hm))

theorem mapInsert_keys (m : List (Sym × Sym)) (k v : Sym) :
    (mapInsert m k v).map Prod.fst =
      if (m.map Prod.fst).contains k then m.map Prod.fst else m.map Prod.fst ++ [k] := by
  unfold mapInsert
  by_cases h : (m.map Prod.fst).contains k = true
  · rw [if_pos h, if_pos h, List.map_map]
    refine List.map_congr_left ?_
    intro p _
    by_cases hk : p.1 = k <;> simp [hk]
  · rw [if_neg h, if_neg h, List.map_append]
    rfl

theorem mapInsert_keys_nodup {m : List (Sym × Sym)} (k v : Sym)
    (h : (m.map Prod.fst).Nodup) : ((mapInsert m k v).map Prod.fst).Nodup := by
  rw [mapInsert_keys]
  split
  · exact h
  · have hk : k ∉ m.map Prod.fst :=
      fun hm => (by assumption : ¬(m.map Prod.fst).contains k = true) ((contains_mem _ k).mpr hm)
    simp [List.nodup_append, h, hk]

theorem mapInsert_keys_mono {m : List (Sym × Sym)} {q : Sym} (k v : Sym)
    (h : q ∈ m.map Prod.fst) : q ∈ (mapInsert m k v).map Prod.fst := by
  rw [mapInsert_keys]
  split <;> simp [h]

/-! ## The ownership walk: characterizing `isInPackage` and
`isInTestPackage` -/

theorem isInPackage_eq_walk (ctx : PkgCtx) :
    ∀ (fuel : Nat) (s o : Sym) (st : ExpState),
      isInPackage ctx fuel s o st =
        (ownerWalk ctx fuel s).map (fun r => (pkgBool r, pkgState ctx r o st))
  | 0, _, _, _ => rfl
  | fuel + 1, s, o, st => by
    rw [isInPackage, ownerWalk]
    by_cases h1 : s = ctx.gs.root ∨ s = ctx.gs.packageRegistry
    · rw [if_pos h1, if_pos h1]
      simp only [Except.map, pkgBool, pkgState]
      split <;> simp_all
    · rw [if_neg h1, if_neg h1]
      by_cases h2 : s = ctx.pkgNamespace
      · rw [if_pos h2]
        simp [h2, pkgBool, pkgState, Except.map]
      · rw [if_neg h2]
        by_cases h3 : s = ctx.pkgTestNamespace
        · rw [if_pos h3]
          simp [h2, h3, pkgBool, pkgState, Except.map]
        · have hor : ¬(s = ctx.pkgNamespace ∨ s = ctx.pkgTestNamespace) := by tauto
          rw [if_neg hor, if_neg h3]
          by_cases h4 : (ctx.gs.isClassOrModule s && ctx.pkgNamespaces.contains s) = true
          · rw [if_pos h4, if_pos h4]
            simp [pkgBool, pkgState, Except.map]
          · rw [if_neg h4, if_neg h4]
            exact isInPackage_eq_walk ctx fuel (ctx.gs.owner s) o st

theorem isInTestPackage_eq_walk (ctx : PkgCtx) :
    ∀ (fuel : Nat) (s : Sym),
      isInTestPackage ctx fuel s = (ownerWalk ctx fuel s).map testBool
  | 0, _ => rfl
  | fuel + 1, s => by
    rw [isInTestPackage, ownerWalk]
    by_cases h1 : s = ctx.gs.root ∨ s = ctx.gs.packageRegistry
    · rw [if_pos h1, if_pos h1]
      rfl
    · rw [if_neg h1, if_neg h1]
      by_cases h2 : s = ctx.pkgNamespace
      · rw [if_pos h2, if_pos h2]
        rfl
      · rw [if_neg h2, if_neg h2]
        by_cases h3 : s = ctx.pkgTestNamespace
        · rw [if_pos h3, if_pos h3]
          rfl
        · rw [if_neg h3, if_neg h3]
          by_cases h4 : (ctx.gs.isClassOrModule s && ctx.pkgNamespaces.contains s) = true
          · rw [if_pos h4, if_pos h4]
            rfl
          · rw [if_neg h4, if_neg h4]
            exact isInTestPackage_eq_walk ctx fuel (ctx.gs.owner s)

theorem ownerWalk_foreign_props (ctx : PkgCtx) :
    ∀ (fuel : Nat) (s p : Sym), ownerWalk ctx fuel s = .ok (.foreign p) →
      p ∈ ctx.pkgNamespaces ∧ p ≠ ctx.pkgNamespace ∧ p ≠ ctx.pkgTestNamespace
  | 0, s, p, h => by simp [ownerWalk] at h
  | fuel + 1, s, p, h => by
    rw [ownerWalk] at h
    by_cases h1 : s = ctx.gs.root ∨ s = ctx.gs.packageRegistry
    · rw [if_pos h1] at h
      simp at h
    · rw [if_neg h1] at h
      by_cases h2 : s = ctx.pkgNamespace
      · rw [if_pos h2] at h
        simp at h
      · rw [if_neg h2] at h
        by_cases h3 : s = ctx.pkgTestNamespace
        · rw [if_pos h3] at h
          simp at h
        · rw [if_neg h3] at h
          by_cases h4 : (ctx.gs.isClassOrModule s && ctx.pkgNamespaces.contains s) = true
          · rw [if_pos h4] at h
            have hsp : s = p := by
              simpa using h
            subst hsp
            refine ⟨?_, h2, h3⟩
            exact (contains_mem _ s).mp (Bool.and_elim_right h4)
          · rw [if_neg h4] at h
            exact ownerWalk_foreign_props ctx fuel (ctx.gs.owner s) p h

/-! ## Claim C1: foreign symbols are rejected and recorded as
dependency edges -/

/-- C1.  A symbol fed to `maybeEmit` whose owner-chain walk reaches a
known package namespace `p` different from the generating package's
production and test namespaces is rejected: the resulting state has an
unchanged visited set and worklist (it is never enqueued for
rendering), and the only change is the dependency edge
`referencedPackages[p] = s`.  The per-package map is deduplicated by
owning package — an existing key keeps exactly one entry whose value
is overwritten by the latest blaming symbol. -/
theorem rbiGen_c1_foreign_reject (ctx : PkgCtx) (fuel : Nat) (s p : Sym) (st : ExpState)
    (hsing : (ctx.gs.isClassOrModule s && ctx.gs.isSingletonClass s) = false)
    (hvis : st.emittedSymbols.contains s = false)
    (hwalk : ownerWalk ctx fuel s = .ok (.foreign p)) :
    maybeEmit ctx (fuel + 1) s st =
      .ok { st with referencedPackages := mapInsert st.referencedPackages p s } ∧
    p ∈ ctx.pkgNamespaces ∧ p ≠ ctx.pkgNamespace ∧ p ≠ ctx.pkgTestNamespace ∧
    mapLookup (mapInsert st.referencedPackages p s) p = some s ∧
    ((st.referencedPackages.map Prod.fst).Nodup →
      ((mapInsert st.referencedPackages p s).map Prod.fst).Nodup) := by
  have hip := isInPackage_eq_walk ctx fuel s s st
  rw [hwalk] at hip
  obtain ⟨hmem, hne1, hne2⟩ := ownerWalk_foreign_props ctx fuel s p hwalk
  refine ⟨?_, hmem, hne1, hne2, mapLookup_mapInsert_self .., fun h => mapInsert_keys_nodup p s h⟩
  rw [maybeEmit]
  simp only [hsing, Bool.false_eq_true, if_false, hvis, hip]
  rfl

/-- Witness for C1 on the demo graph: the class `Bar::Y` (symbol 8),
owned by the foreign package namespace `Bar` (symbol 4), is rejected
with a recorded edge and nothing enqueued. -/
theorem rbiGen_c1_foreign_reject_witness :
    maybeEmit ctxDemo 10 8 initExpState =
      .ok { initExpState with referencedPackages := mapInsert [] 4 8 } ∧
    (4 : Sym) ∈ ctxDemo.pkgNamespaces := by
  have h := rbiGen_c1_foreign_reject ctxDemo 9 8 4 initExpState rfl rfl rfl
  exact ⟨h.1, h.2.1⟩

/-! ## Claim C8: unpackaged symbols are rejected; legacy RBI
provenance is recorded -/

/-- C8.  A symbol whose owner-chain walk reaches the global root
without meeting any known package namespace is rejected from the
closure (nothing is enqueued, the visited set is unchanged).  When its
defining location exists and lies in an RBI file that is not a bundled
payload, that file is added to the legacy-dependency set; the set is
deduplicated by path (inserting a present file is a no-op and
preserves distinctness). -/
theorem rbiGen_c8_unpackaged_reject (ctx : PkgCtx) (fuel : Nat) (s : Sym) (st : ExpState)
    (hsing : (ctx.gs.isClassOrModule s && ctx.gs.isSingletonClass s) = false)
    (hvis : st.emittedSymbols.contains s = false)
    (hwalk : ownerWalk ctx fuel s = .ok .unpackaged) :
    maybeEmit ctx (fuel + 1) s st =
      .ok (if ctx.gs.locExists s && ctx.gs.fileIsRBI (ctx.gs.locFile s)
              && !ctx.gs.fileIsPayload (ctx.gs.locFile s) then
            { st with referencedRBIs := setInsert st.referencedRBIs (ctx.gs.locFile s) }
          else st) ∧
    (ctx.gs.locFile s ∈ st.referencedRBIs →
      setInsert st.referencedRBIs (ctx.gs.locFile s) = st.referencedRBIs) ∧
    (st.referencedRBIs.Nodup → (setInsert st.referencedRBIs (ctx.gs.locFile s)).Nodup) := by
  have hip := isInPackage_eq_walk ctx fuel s s st
  rw [hwalk] at hip
  refine ⟨?_, fun h => setInsert_of_mem h, fun h => setInsert_nodup h⟩
  rw [maybeEmit]
  simp only [hsing, Bool.false_eq_true, if_false, hvis, hip]
  simp only [Except.map, pkgState, pkgBool]

/-- Witness for C8 on the demo graph: symbol 10 is unpackaged and
defined in the legacy RBI file 1, which gets recorded while the symbol
is rejected. -/
theorem rbiGen_c8_unpackaged_reject_witness :
    maybeEmit ctxDemo 10 10 initExpState =
      .ok (if gDemo.locExists 10 && gDemo.fileIsRBI (gDemo.locFile 10)
              && !gDemo.fileIsPayload (gDemo.locFile 10) then
            { initExpState with referencedRBIs := setInsert [] 1 }
          else initExpState) := by
  exact (rbiGen_c8_unpackaged_reject ctxDemo 9 10 initExpState rfl rfl rfl).1

/-! ## State effects of `maybeEmit` and the emission entry points -/

theorem symInsert_cases {l : List Sym} {x y : Sym} (h : y ∈ symInsert l x) : y ∈ l ∨ y = x := by
  unfold symInsert at h
  split at h
  · exact Or.inl h
  · simp only [List.mem_append, List.mem_singleton] at h
    exact h

theorem pkgState_emittedSymbols (ctx : PkgCtx) (o : Sym) (st : ExpState) :
    ∀ r, (pkgState ctx r o st).emittedSymbols = st.emittedSymbols
  | .inPkgProd => rfl
  | .inPkgTest => rfl
  | .foreign _ => rfl
  | .unpackaged => by
    simp only [pkgState]
    split <;> rfl

theorem pkgState_toEmit (ctx : PkgCtx) (o : Sym) (st : ExpState) :
    ∀ r, (pkgState ctx r o st).toEmit = st.toEmit
  | .inPkgProd => rfl
  | .inPkgTest => rfl
  | .foreign _ => rfl
  | .unpackaged => by
    simp only [pkgState]
    split <;> rfl

theorem maybeEmit_state (ctx : PkgCtx) :
    ∀ (fuel : Nat) (s : Sym) (st st1 : ExpState), maybeEmit ctx fuel s st = .ok st1 →
      (∀ y ∈ st.emittedSymbols, y ∈ st1.emittedSymbols) ∧
      (st1.toEmit = st.toEmit ∨
        ∃ x, x ∉ st.emittedSymbols ∧ st1.toEmit = st.toEmit ++ [x] ∧ x ∈ st1.emittedSymbols) ∧
      (∀ y, y ∉ st.emittedSymbols → y ∈ st1.emittedSymbols → y ∈ st1.toEmit)
  | 0, s, st, st1, h => by simp [maybeEmit] at h
  | fuel + 1, s, st, st1, h => by
    rw [maybeEmit] at h
    by_cases hsing : (ctx.gs.isClassOrModule s && ctx.gs.isSingletonClass s) = true
    · rw [if_pos hsing] at h
      exact maybeEmit_state ctx fuel (ctx.gs.attachedClass s) st st1 h
    · rw [if_neg hsing] at h
      by_cases hvis : st.emittedSymbols.contains s = true
      · rw [if_pos hvis] at h
        cases h
        exact ⟨fun y hy => hy, Or.inl rfl, fun y hy hy2 => absurd hy2 hy⟩
      · rw [if_neg hvis] at h
        cases hw : ownerWalk ctx fuel s with
        | error e =>
          rw [isInPackage_eq_walk, hw] at h
          simp [Except.map] at h
        | ok r =>
          rw [isInPackage_eq_walk, hw] at h
          cases r with
          | inPkgProd =>
            simp only [Except.map, pkgBool, pkgState] at h
            cases h
            have hse : s ∉ st.emittedSymbols := fun hm => hvis ((contains_mem _ s).mpr hm)
            refine ⟨fun y hy => symInsert_mono s hy, Or.inr ⟨s, hse, rfl, symInsert_self _ s⟩, ?_⟩
            intro y hy hy2
            rcases symInsert_cases hy2 with hmem | hys
            · exact absurd hmem hy
            · subst hys
              simp
          | inPkgTest =>
            simp only [Except.map, pkgBool, pkgState] at h
            cases h
            have hse : s ∉ st.emittedSymbols := fun hm => hvis ((contains_mem _ s).mpr hm)
            refine ⟨fun y hy => symInsert_mono s hy, Or.inr ⟨s, hse, rfl, symInsert_self _ s⟩, ?_⟩
            intro y hy hy2
            rcases symInsert_cases hy2 with hmem | hys
            · exact absurd hmem hy
            · subst hys
              simp
          | foreign p =>
            simp only [Except.map, pkgBool] at h
            cases h
            exact ⟨fun y hy => hy, Or.inl rfl, fun y hy hy2 => absurd hy2 hy⟩
          | unpackaged =>
            simp only [Except.map, pkgBool] at h
            cases h
            refine ⟨?_, ?_, ?_⟩
            · intro y hy
              rw [pkgState_emittedSymbols]
              exact hy
            · left
              rw [pkgState_toEmit]
            · intro y hy hy2
              rw [pkgState_emittedSymbols] at hy2
              exact absurd hy2 hy

theorem maybeEmit_inv (ctx : PkgCtx) {fuel : Nat} {s : Sym} {st st1 : ExpState}
    (h : maybeEmit ctx fuel s st = .ok st1) (hi : InvE st) : InvE st1 := by
  obtain ⟨hmono, hext, _⟩ := maybeEmit_state ctx fuel s st st1 h
  rcases hext with heq | ⟨x, hx, heq, hxm⟩
  · exact ⟨heq ▸ hi.1, fun y hy => hmono y (hi.2 y (heq ▸ hy))⟩
  · constructor
    · rw [heq]
      have hxt : x ∉ st.toEmit := fun hm => hx (hi.2 x hm)
      simp [List.nodup_append, hi.1, hxt]
    · intro y hy
      rw [heq] at hy
      rcases List.mem_append.mp hy with hy1 | hy2
      · exact hmono y (hi.2 y hy1)
      · rw [List.mem_singleton.mp hy2]
        exact hxm

theorem maybeEmit_toEmit_mono (ctx : PkgCtx) {fuel : Nat} {s y : Sym} {st st1 : ExpState}
    (h : maybeEmit ctx fuel s st = .ok st1) (hy : y ∈ st.toEmit) : y ∈ st1.toEmit := by
  rcases (maybeEmit_state ctx fuel s st st1 h).2.1 with heq | ⟨x, _, heq, _⟩ <;>
    simp [heq, hy]

theorem maybeEmitAll_state (ctx : PkgCtx) (fuel : Nat) :
    ∀ (rs : List Sym) (st st1 : ExpState), maybeEmitAll ctx fuel rs st = .ok st1 →
      (∀ y ∈ st.emittedSymbols, y ∈ st1.emittedSymbols) ∧
      (∀ y ∈ st.toEmit, y ∈ st1.toEmit) ∧
      (InvE st → InvE st1) ∧
      (∀ y, y ∉ st.emittedSymbols → y ∈ st1.emittedSymbols → y ∈ st1.toEmit)
  | [], st, st1, h => by
    cases h
    exact ⟨fun y hy => hy, fun y hy => hy, id, fun y hy hy2 => absurd hy2 hy⟩
  | r :: rest, st, st1, h => by
    rw [maybeEmitAll] at h
    cases hm : maybeEmit ctx fuel r st with
    | error e => rw [hm] at h; cases h
    | ok stm =>
      rw [hm] at h
      obtain ⟨ih1, ih2, ih3, ih4⟩ := maybeEmitAll_state ctx fuel rest stm st1 h
      obtain ⟨m1, _, m3⟩ := maybeEmit_state ctx fuel r st stm hm
      refine ⟨fun y hy => ih1 y (m1 y hy), fun y hy => ih2 y (maybeEmit_toEmit_mono ctx hm hy),
        fun hi => ih3 (maybeEmit_inv ctx hm hi), ?_⟩
      intro y hy hy2
      by_cases hmid : y ∈ stm.emittedSymbols
      · exact ih2 y (m3 y hy hmid)
      · exact ih4 y hmid hy2

theorem emitMethodEntry_state (ctx : PkgCtx) (fuel : Nat) (s : Sym) (st st1 : ExpState)
    (ds : List Sym) (h : emitMethodEntry ctx fuel s st = .ok (st1, ds)) :
    (∀ y ∈ st.emittedSymbols, y ∈ st1.emittedSymbols) ∧
    (∀ y ∈ st.toEmit, y ∈ st1.toEmit) ∧
    (InvE st → InvE st1) ∧
    (ds = [] ∨ (ds = [s] ∧ s ∉ st.emittedSymbols ∧ s ∈ st1.emittedSymbols)) := by
  rw [emitMethodEntry] at h
  by_cases hvis : st.emittedSymbols.contains s = true
  · rw [if_pos hvis] at h
    cases h
    exact ⟨fun y hy => hy, fun y hy => hy, id, Or.inl rfl⟩
  · rw [if_neg hvis] at h
    have hse : s ∉ st.emittedSymbols := fun hm => hvis ((contains_mem _ s).mpr hm)
    by_cases hsi : ctx.gs.nameIsStaticInit s = true
    · rw [if_pos hsi] at h
      cases h
      exact ⟨fun y hy => hy, fun y hy => hy, id, Or.inl rfl⟩
    · rw [if_neg hsi] at h
      simp only at h
      by_cases hlt : ctx.gs.nameStartsWithLt s = true
      · rw [if_pos hlt] at h
        cases h
        refine ⟨fun y hy => symInsert_mono s hy, fun y hy => hy, ?_, Or.inl rfl⟩
        intro hi
        exact ⟨hi.1, fun y hy => symInsert_mono s (hi.2 y hy)⟩
      · rw [if_neg hlt] at h
        cases hdel : tryEmitDefDelegator (ctx.gs.argNames s) (ctx.gs.showName s) with
        | invalidDelegator => rw [hdel] at h; cases h
        | emitted line =>
          rw [hdel] at h
          cases h
          refine ⟨fun y hy => symInsert_mono s hy, fun y hy => hy, ?_,
            Or.inr ⟨rfl, hse, symInsert_self _ s⟩⟩
          intro hi
          exact ⟨hi.1, fun y hy => symInsert_mono s (hi.2 y hy)⟩
        | notDelegator =>
          rw [hdel] at h
          cases hall : maybeEmitAll ctx fuel (ctx.gs.refs s)
              { st with emittedSymbols := symInsert st.emittedSymbols s } with
          | error e => rw [hall] at h; cases h
          | ok st2 =>
            rw [hall] at h
            cases h
            obtain ⟨a1, a2, a3, _⟩ := maybeEmitAll_state ctx fuel (ctx.gs.refs s) _ _ hall
            refine ⟨fun y hy => a1 y (symInsert_mono s hy), fun y hy => a2 y hy, ?_,
              Or.inr ⟨rfl, hse, a1 s (symInsert_self _ s)⟩⟩
            intro hi
            exact a3 ⟨hi.1, fun y hy => symInsert_mono s (hi.2 y hy)⟩

theorem emitTypeMemberEntry_state (ctx : PkgCtx) (fuel : Nat) (s : Sym) (st st1 : ExpState)
    (ds : List Sym) (h : emitTypeMemberEntry ctx fuel s st = .ok (st1, ds)) :
    (∀ y ∈ st.emittedSymbols, y ∈ st1.emittedSymbols) ∧
    (∀ y ∈ st.toEmit, y ∈ st1.toEmit) ∧
    (InvE st → InvE st1) ∧
    (ds = [] ∨ (ds = [s] ∧ s ∉ st.emittedSymbols ∧ s ∈ st1.emittedSymbols)) := by
  rw [emitTypeMemberEntry] at h
  by_cases hvis : st.emittedSymbols.contains s = true
  · rw [if_pos hvis] at h
    cases h
    exact ⟨fun y hy => hy, fun y hy => hy, id, Or.inl rfl⟩
  · rw [if_neg hvis] at h
    have hse : s ∉ st.emittedSymbols := fun hm => hvis ((contains_mem _ s).mpr hm)
    simp only at h
    by_cases hac : ctx.gs.nameIsAttachedClass s = true
    · rw [if_pos hac] at h
      cases h
      refine ⟨fun y hy => symInsert_mono s hy, fun y hy => hy, ?_, Or.inl rfl⟩
      intro hi
      exact ⟨hi.1, fun y hy => symInsert_mono s (hi.2 y hy)⟩
    · rw [if_neg hac] at h
      cases hall : maybeEmitAll ctx fuel (ctx.gs.refs s)
          { st with emittedSymbols := symInsert st.emittedSymbols s } with
      | error e => rw [hall] at h; cases h
      | ok st2 =>
        rw [hall] at h
        cases h
        obtain ⟨a1, a2, a3, _⟩ := maybeEmitAll_state ctx fuel (ctx.gs.refs s) _ _ hall
        refine ⟨fun y hy => a1 y (symInsert_mono s hy), fun y hy => a2 y hy, ?_,
          Or.inr ⟨rfl, hse, a1 s (symInsert_self _ s)⟩⟩
        intro hi
        exact a3 ⟨hi.1, fun y hy => symInsert_mono s (hi.2 y hy)⟩

theorem runOp_genInv (ctx : PkgCtx) (fuel : Nat) (p : ExpState × List Sym) (op : GenOp)
    (hi : GenInv p) : GenInv (runOp ctx fuel p op) := by
  obtain ⟨hie, hnd, hmem⟩ := hi
  cases op with
  | enq s =>
    simp only [runOp]
    cases hm : maybeEmit ctx fuel s p.1 with
    | error e => exact ⟨hie, hnd, hmem⟩
    | ok st1 =>
      refine ⟨maybeEmit_inv ctx hm hie, hnd, ?_⟩
      intro y hy
      exact (maybeEmit_state ctx fuel s p.1 st1 hm).1 y (hmem y hy)
  | method s =>
    simp only [runOp]
    cases hm : emitMethodEntry ctx fuel s p.1 with
    | error e => exact ⟨hie, hnd, hmem⟩
    | ok q =>
      obtain ⟨q1, q2⟩ := q
      obtain ⟨m1, _, m3, m4⟩ := emitMethodEntry_state ctx fuel s p.1 q1 q2 hm
      rcases m4 with hds | ⟨hds, hs1, hs2⟩
      · subst hds
        refine ⟨m3 hie, ?_, ?_⟩
        · simp [hnd]
        · intro y hy
          simp only [List.append_nil] at hy
          exact m1 y (hmem y hy)
      · subst hds
        refine ⟨m3 hie, ?_, ?_⟩
        · have hnew : s ∉ p.2 := fun hm2 => hs1 (hmem s hm2)
          simp [List.nodup_append, hnd, hnew]
        · intro y hy
          rcases List.mem_append.mp hy with hy1 | hy2
          · exact m1 y (hmem y hy1)
          · rw [List.mem_singleton.mp hy2]
            exact hs2
  | typeMember s =>
    simp only [runOp]
    cases hm : emitTypeMemberEntry ctx fuel s p.1 with
    | error e => exact ⟨hie, hnd, hmem⟩
    | ok q =>
      obtain ⟨q1, q2⟩ := q
      obtain ⟨m1, _, m3, m4⟩ := emitTypeMemberEntry_state ctx fuel s p.1 q1 q2 hm
      rcases m4 with hds | ⟨hds, hs1, hs2⟩
      · subst hds
        refine ⟨m3 hie, ?_, ?_⟩
        · simp [hnd]
        · intro y hy
          simp only [List.append_nil] at hy
          exact m1 y (hmem y hy)
      · subst hds
        refine ⟨m3 hie, ?_, ?_⟩
        · have hnew : s ∉ p.2 := fun hm2 => hs1 (hmem s hm2)
          simp [List.nodup_append, hnd, hnew]
        · intro y hy
          rcases List.mem_append.mp hy with hy1 | hy2
          · exact m1 y (hmem y hy1)
          · rw [List.mem_singleton.mp hy2]
            exact hs2

theorem foldl_runOp_genInv (ctx : PkgCtx) (fuel : Nat) :
    ∀ (ops : List GenOp) (p : ExpState × List Sym), GenInv p →
      GenInv (ops.foldl (runOp ctx fuel) p)
  | [], _, hi => hi
  | op :: rest, p, hi =>
    foldl_runOp_genInv ctx fuel rest (runOp ctx fuel p op) (runOp_genInv ctx fuel p op hi)

/-! ## Claim C2: no symbol is emitted twice in one generation pass -/

/-- C2.  Along any trace of generation operations (enqueuing through
`maybeEmit`, and the guarded method and type-member emission entry
points) starting from the fresh per-package state, the worklist stays
duplicate-free, everything enqueued is in the visited set, and the
produced declaration list names each symbol at most once (it is
`Nodup` and contained in the visited set).  Moreover `maybeEmit`
enqueues only symbols that were not yet in the visited set: whenever it
changes the worklist it appends exactly one previously-unvisited
symbol and simultaneously marks it visited. -/
theorem rbiGen_c2_no_duplicate_emission (ctx : PkgCtx) (fuel : Nat) :
    (∀ ops : List GenOp, GenInv (runOps ctx fuel ops)) ∧
    (∀ (s : Sym) (st st1 : ExpState), maybeEmit ctx fuel s st = .ok st1 →
      st1.toEmit ≠ st.toEmit →
      ∃ x, x ∉ st.emittedSymbols ∧ st1.toEmit = st.toEmit ++ [x] ∧ x ∈ st1.emittedSymbols) := by
  constructor
  · intro ops
    refine foldl_runOp_genInv ctx fuel ops (initExpState, []) ?_
    refine ⟨⟨List.nodup_nil, ?_⟩, List.nodup_nil, ?_⟩ <;> simp [initExpState]
  · intro s st st1 h hne
    rcases (maybeEmit_state ctx fuel s st st1 h).2.1 with heq | hex
    · exact absurd heq hne
    · exact hex

/-- Witness for C2: a concrete trace on the demo graph keeps the
invariant, and a concrete `maybeEmit` call that changes the worklist
appends exactly one unvisited symbol. -/
theorem rbiGen_c2_no_duplicate_emission_witness :
    GenInv (runOps ctxDemo 10 [GenOp.enq 7, GenOp.method 12, GenOp.typeMember 13]) ∧
    (∃ x, x ∉ initExpState.emittedSymbols ∧
      ({ emittedSymbols := [7], referencedPackages := [], referencedRBIs := [],
         toEmit := [7] } : ExpState).toEmit = initExpState.toEmit ++ [x] ∧
      x ∈ ({ emittedSymbols := [7], referencedPackages := [], referencedRBIs := [],
             toEmit := [7] } : ExpState).emittedSymbols) :=
  ⟨(rbiGen_c2_no_duplicate_emission ctxDemo 10).1 _,
   (rbiGen_c2_no_duplicate_emission ctxDemo 10).2 7 initExpState _ rfl (by decide)⟩


/-! ## Claim C3: struct property recovery -/

theorem maybeEmitStructProps_subset :
    ∀ (args : List SArg) (methods fields : List String),
      (∀ m ∈ (maybeEmitStructProps args methods fields).2.1, m ∈ methods) ∧
      (∀ f ∈ (maybeEmitStructProps args methods fields).2.2, f ∈ fields)
  | [], methods, fields => by
    simp [maybeEmitStructProps]
  | arg :: rest, methods, fields => by
    rw [maybeEmitStructProps]
    by_cases hskip : (arg.isSyntheticBlock || !arg.isKeyword) = true
    · rw [if_pos hskip]
      exact maybeEmitStructProps_subset rest methods fields
    · rw [if_neg hskip]
      simp only
      obtain ⟨ih1, ih2⟩ := maybeEmitStructProps_subset rest
        (removePropMethods methods arg.name true).1 (removePropField fields arg.name)
      refine ⟨fun m hm => ?_, fun f hf => ?_⟩
      · have := ih1 m hm
        simp only [removePropMethods, List.mem_filter] at this
        exact this.1
      · have := ih2 f hf
        simp only [removePropField, List.mem_filter] at this
        exact this.1

theorem filter_contains_of_pred (l : List String) (x : String) (p : String → Bool)
    (hp : p x = true) : (l.filter p).contains x = l.contains x := by
  by_cases h : x ∈ l
  · rw [(contains_mem _ x).mpr h, (contains_mem _ x).mpr (List.mem_filter.mpr ⟨h, hp⟩)]
  · have h2 : x ∉ l.filter p := fun hm => h (List.mem_filter.mp hm).1
    rw [Bool.eq_false_iff.mpr (fun hc => h ((contains_mem _ x).mp hc)),
      Bool.eq_false_iff.mpr (fun hc => h2 ((contains_mem _ x).mp hc))]

/-- C3.  For a struct-base class, each keyword constructor parameter
yields exactly one property declaration, in parameter order: `const`
when no `name=` setter exists among the class's pending methods and
`prop` otherwise, with the unsafe-default expression appended exactly
when the parameter carries a default value.  The matching getter,
setter, and `@name` backing field are removed from the pending lists,
so they produce no standalone definitions.  The distinctness hypothesis
says the keyword parameters have pairwise distinct names and none is
named like another's setter. -/
theorem rbiGen_c3_struct_props :
    ∀ (args : List SArg) (methods fields : List String),
      (structPropsKw args).Pairwise
        (fun a b => a.name ≠ b.name ∧ a.name ++ "=" ≠ b.name ∧ b.name ++ "=" ≠ a.name ∧
          a.name ++ "=" ≠ b.name ++ "=") →
      (maybeEmitStructProps args methods fields).1 =
        (structPropsKw args).map (fun a =>
          emitProp a.name a.typeStr (!methods.contains (a.name ++ "=")) a.isDefault) ∧
      (∀ a ∈ structPropsKw args,
        a.name ∉ (maybeEmitStructProps args methods fields).2.1 ∧
        a.name ++ "=" ∉ (maybeEmitStructProps args methods fields).2.1 ∧
        "@" ++ a.name ∉ (maybeEmitStructProps args methods fields).2.2)
  | [], methods, fields, _ => by
    simp [maybeEmitStructProps, structPropsKw]
  | arg :: rest, methods, fields, hd => by
    rw [maybeEmitStructProps]
    by_cases hskip : (arg.isSyntheticBlock || !arg.isKeyword) = true
    · have hpredF : (!arg.isSyntheticBlock && arg.isKeyword) = false := by
        cases hsb : arg.isSyntheticBlock <;> cases hkb : arg.isKeyword <;>
          simp [hsb, hkb] at hskip ⊢
      have hkw : structPropsKw (arg :: rest) = structPropsKw rest := by
        unfold structPropsKw
        rw [List.filter_cons, hpredF]
        simp
      rw [if_pos hskip, hkw]
      exact rbiGen_c3_struct_props rest methods fields (hkw ▸ hd)
    · have hpred : (!arg.isSyntheticBlock && arg.isKeyword) = true := by
        cases hsb : arg.isSyntheticBlock <;> cases hkb : arg.isKeyword <;>
          simp [hsb, hkb] at hskip ⊢
      have hkw : structPropsKw (arg :: rest) = arg :: structPropsKw rest := by
        unfold structPropsKw
        rw [List.filter_cons, hpred]
        simp
      rw [if_neg hskip, hkw]
      have hdc := List.pairwise_cons.mp (hkw ▸ hd)
      obtain ⟨ih1, ih2⟩ := rbiGen_c3_struct_props rest
        (removePropMethods methods arg.name true).1 (removePropField fields arg.name) hdc.2
      obtain ⟨s1, s2⟩ := maybeEmitStructProps_subset rest
        (removePropMethods methods arg.name true).1 (removePropField fields arg.name)
      simp only [removePropMethods] at ih1 ih2 s1 s2 ⊢
      constructor
      · rw [List.map_cons]
        refine congrArg₂ List.cons ?_ ?_
        · rfl
        · rw [ih1]
          refine List.map_congr_left ?_
          intro b hb
          obtain ⟨hn1, hn2, hn3, hn4⟩ := hdc.1 b hb
          have hmemeq := filter_contains_of_pred methods (b.name ++ "=")
            (fun m => decide (m ≠ arg.name ++ "=") && decide (m ≠ arg.name))
            (by
              simp only [Bool.and_eq_true, decide_eq_true_eq, ne_eq]
              exact ⟨fun hc => hn4 hc.symm, fun hc => hn3 hc⟩)
          rw [hmemeq]
      · intro a ha
        rcases List.mem_cons.mp ha with haeq | hamem
        · subst haeq
          refine ⟨fun hm => ?_, fun hm => ?_, fun hm => ?_⟩
          · have := s1 _ hm
            simp [List.mem_filter] at this
          · have := s1 _ hm
            simp [List.mem_filter] at this
          · have := s2 _ hm
            simp [removePropField, List.mem_filter] at this
        · exact ih2 a hamem

/-- Witness for C3, the spec's concrete struct example: keyword
parameters `a` (required) and `b` (defaulted), accessor methods `a`,
`b`, `b=`, backing fields `@a`, `@b` yield a `const` line for `a`, a
defaulted `prop` line for `b`, and the accessors and fields are
removed from the pending lists. -/
theorem rbiGen_c3_struct_props_witness :
    (maybeEmitStructProps
        [⟨"a", true, false, false, "Integer"⟩, ⟨"b", true, true, false, "String"⟩]
        ["a", "b", "b="] ["@a", "@b"]).1 =
      ["const :a, Integer", "prop :b, String, default: T.let(T.unsafe(nil), String)"] ∧
    "b" ∉ (maybeEmitStructProps
        [⟨"a", true, false, false, "Integer"⟩, ⟨"b", true, true, false, "String"⟩]
        ["a", "b", "b="] ["@a", "@b"]).2.1 ∧
    "b=" ∉ (maybeEmitStructProps
        [⟨"a", true, false, false, "Integer"⟩, ⟨"b", true, true, false, "String"⟩]
        ["a", "b", "b="] ["@a", "@b"]).2.1 := by
  have h := rbiGen_c3_struct_props
    [⟨"a", true, false, false, "Integer"⟩, ⟨"b", true, true, false, "String"⟩]
    ["a", "b", "b="] ["@a", "@b"]
    (by simp [structPropsKw, List.pairwise_cons])
  have hb := h.2 ⟨"b", true, true, false, "String"⟩ (by simp [structPropsKw])
  exact ⟨h.1.trans (by rfl), hb.1, hb.2.1⟩


/-! ## Claim C4: plural delegation desugars to one single-target
directive per target method -/

theorem startsWith_delegators_delegator (argName : String)
    (h : strStartsWith argName "def_delegators" = true) :
    strStartsWith argName "def_delegator" = true := by
  unfold strStartsWith at h ⊢
  have hp1 : ("def_delegator".data).IsPrefix ("def_delegators".data) := by decide
  have hp2 := List.isPrefixOf_iff_prefix.mp h
  exact List.isPrefixOf_iff_prefix.mpr (hp1.trans hp2)

/-- C4.  A method recognized as a plural delegation (its first formal
parameter's internal name begins with `def_delegators`) emits exactly
one single-target `def_delegator` directive, naming the shared
receiver expression (the first non-empty stripped component after the
head of the split declaration) and the current method's own name.
Instantiating the method name at each target of the plural declaration
therefore yields one directive per target, all referencing the same
receiver. -/
theorem rbiGen_c4_plural_delegation (argName t methodName : String) (restArgs : List String)
    (h1 : strStartsWith argName "def_delegators" = true)
    (h2 : findTargetAfterFirst (splitComponents argName).tail = some t) :
    tryEmitDefDelegator (argName :: restArgs) methodName =
      .emitted ("def_delegator " ++ t ++ ", :" ++ methodName) := by
  have hpre := startsWith_delegators_delegator argName h1
  simp only [tryEmitDefDelegator]
  rw [hpre, h1]
  simp only [Bool.not_true, Bool.false_eq_true, if_false, if_true, h2]

/-- Witness for C4, the spec's example: `def_delegators :R, :m1, :m2`
rendered at target methods `m1` and `m2` yields two single-target
directives, each referencing the receiver `:R`. -/
theorem rbiGen_c4_plural_delegation_witness :
    tryEmitDefDelegator ["def_delegators :R, :m1, :m2"] "m1" =
      .emitted ("def_delegator " ++ ":R" ++ ", :" ++ "m1") ∧
    tryEmitDefDelegator ["def_delegators :R, :m1, :m2"] "m2" =
      .emitted ("def_delegator " ++ ":R" ++ ", :" ++ "m2") :=
  ⟨rbiGen_c4_plural_delegation "def_delegators :R, :m1, :m2" ":R" "m1" [] (by decide) (by decide),
   rbiGen_c4_plural_delegation "def_delegators :R, :m1, :m2" ":R" "m2" [] (by decide) (by decide)⟩

/-! ## Claim C5: signature layout threshold -/

theorem strAppend_cancel_left {a b c : String} (h : a ++ b = a ++ c) : b = c := by
  have hd := congrArg String.data h
  simp only [String.data_append] at hd
  exact String.ext (List.append_cancel_left hd)

theorem sigOneline_ne_multiline (m : MethodSigData) : sigOneline m ≠ sigMultiline m := by
  intro h
  unfold sigOneline sigMultiline at h
  have h2 := strAppend_cancel_left h
  have hd := congrArg String.data h2
  simp only [String.data_append] at hd
  simp at hd

/-- C5.  `prettySigForMethod` uses the single-line rendering exactly
when that rendering is at most `MAX_PRETTY_WIDTH` (80) characters long
and the method has at most `MAX_PRETTY_SIG_ARGS` (4) printed
(non-synthetic) parameters; when either bound is exceeded it produces
the multi-line `do ... end` form (and never the single-line one, the
two renderings being distinct). -/
theorem rbiGen_c5_sig_layout (m : MethodSigData) :
    (prettySigForMethod m = sigOneline m ↔
      (sigOneline m).length ≤ MAX_PRETTY_WIDTH ∧ (sigParams m).length ≤ MAX_PRETTY_SIG_ARGS) ∧
    (prettySigForMethod m = sigMultiline m ↔
      ¬((sigOneline m).length ≤ MAX_PRETTY_WIDTH ∧
        (sigParams m).length ≤ MAX_PRETTY_SIG_ARGS)) := by
  have hne := sigOneline_ne_multiline m
  unfold prettySigForMethod
  by_cases hc : (sigOneline m).length ≤ MAX_PRETTY_WIDTH ∧
      (sigParams m).length ≤ MAX_PRETTY_SIG_ARGS
  · rw [if_pos hc]
    exact ⟨⟨fun _ => hc, fun _ => rfl⟩,
      ⟨fun h => absurd h hne, fun h => absurd hc h⟩⟩
  · rw [if_neg hc]
    exact ⟨⟨fun h => absurd h.symm hne, fun h => absurd h hc⟩,
      ⟨fun _ => hc, fun _ => rfl⟩⟩

/-! ## Claim C7: invariant violations abort the run -/

theorem isInPackage_preserves (ctx : PkgCtx) (fuel : Nat) (s o : Sym) (st : ExpState)
    (b : Bool) (st1 : ExpState) (h : isInPackage ctx fuel s o st = .ok (b, st1)) :
    st1.emittedSymbols = st.emittedSymbols ∧ st1.toEmit = st.toEmit := by
  rw [isInPackage_eq_walk] at h
  cases hw : ownerWalk ctx fuel s with
  | error e =>
    rw [hw] at h
    simp [Except.map] at h
  | ok r =>
    rw [hw] at h
    simp only [Except.map, Except.ok.injEq, Prod.mk.injEq] at h
    rw [← h.2]
    exact ⟨pkgState_emittedSymbols ctx o st r, pkgState_toEmit ctx o st r⟩

/-- C7.  Rendering a class symbol that the ownership walk rejects, or
that was never marked visited, raises the fatal `Invalid klass` error
instead of emitting anything; and a recognized plural delegation whose
declaration text contains no non-empty target token raises the fatal
`Invalid def_delegator!` error.  Both are modelled as the
run-aborting error results of the corresponding entry points. -/
theorem rbiGen_c7_fatal_errors :
    (∀ (ctx : PkgCtx) (fuel : Nat) (s : Sym) (st : ExpState) (b : Bool) (st1 : ExpState),
      ctx.gs.kind s = SymKind.classOrModule →
      isInPackage ctx fuel s s st = .ok (b, st1) →
      (b = false ∨ st.emittedSymbols.contains s = false) →
      emitOne ctx fuel s st = .error .invalidKlass) ∧
    (∀ (argName methodName : String) (restArgs : List String),
      strStartsWith argName "def_delegators" = true →
      findTargetAfterFirst (splitComponents argName).tail = none →
      tryEmitDefDelegator (argName :: restArgs) methodName = .invalidDelegator) := by
  constructor
  · intro ctx fuel s st b st1 hkind hip hbad
    have hpres := isInPackage_preserves ctx fuel s s st b st1 hip
    unfold emitOne
    rw [hkind]
    simp only [hip]
    rcases hbad with hb | hs
    · subst hb
      simp
    · have hc : st1.emittedSymbols.contains s = false := by
        rw [hpres.1]
        exact hs
      rw [hc]
      simp
  · intro argName methodName restArgs h1 h2
    have hpre := startsWith_delegators_delegator argName h1
    simp only [tryEmitDefDelegator]
    rw [hpre, h1]
    simp only [Bool.not_true, Bool.false_eq_true, if_false, if_true, h2]

/-- Witness for C7: the foreign class `Bar::Y` (symbol 8) makes
`emitOne` abort with `Invalid klass` on the demo graph, and a
`def_delegators` declaration with no target token aborts with
`Invalid def_delegator!`. -/
theorem rbiGen_c7_fatal_errors_witness :
    emitOne ctxDemo 10 8 initExpState = .error .invalidKlass ∧
    tryEmitDefDelegator ["def_delegators"] "m" = .invalidDelegator := by
  constructor
  · exact rbiGen_c7_fatal_errors.1 ctxDemo 10 8 initExpState false
      { emittedSymbols := [], referencedPackages := [(4, 8)], referencedRBIs := [], toEmit := [] }
      rfl rfl (Or.inl rfl)
  · exact rbiGen_c7_fatal_errors.2 "def_delegators" "m" [] (by decide) rfl


/-! ## Claim C6: unresolvable export name paths are silently skipped -/

theorem resolveExportsLoop_skip (ctx : PkgCtx) (fuel : Nat) (e : List String) (ys : List (List String))
    (hnone : lookupFQN ctx.gs e = none) :
    ∀ (xs : List (List String)) (ex tex : List Sym),
      resolveExportsLoop ctx fuel (xs ++ e :: ys) ex tex =
        resolveExportsLoop ctx fuel (xs ++ ys) ex tex
  | [], ex, tex => by
    rw [List.nil_append, List.nil_append, resolveExportsLoop, hnone]
  | x :: xs, ex, tex => by
    rw [List.cons_append, List.cons_append]
    simp only [resolveExportsLoop]
    split
    · exact resolveExportsLoop_skip ctx fuel e ys hnone xs _ _
    · split
      · rfl
      · exact resolveExportsLoop_skip ctx fuel e ys hnone xs _ _
      · exact resolveExportsLoop_skip ctx fuel e ys hnone xs _ _

theorem resolveTestExportsLoop_skip (g : SymGraph) (e : List String) (ys : List (List String))
    (hnone : lookupFQN g e = none) :
    ∀ (xs : List (List String)) (tex : List Sym),
      resolveTestExportsLoop g (xs ++ e :: ys) tex = resolveTestExportsLoop g (xs ++ ys) tex
  | [], tex => by
    rw [List.nil_append, List.nil_append, resolveTestExportsLoop, hnone]
  | x :: xs, tex => by
    rw [List.cons_append, List.cons_append]
    simp only [resolveTestExportsLoop]
    split
    · exact resolveTestExportsLoop_skip g e ys hnone xs _
    · exact resolveTestExportsLoop_skip g e ys hnone xs _

theorem resolveAllExports_skip_prod (ctx : PkgCtx) (fuel : Nat) (e : List String)
    (rawT xs ys : List (List String)) (hnone : lookupFQN ctx.gs e = none) :
    resolveAllExports ctx fuel (xs ++ e :: ys) rawT = resolveAllExports ctx fuel (xs ++ ys) rawT := by
  unfold resolveAllExports
  rw [resolveExportsLoop_skip ctx fuel e ys hnone xs [] []]

theorem resolveAllExports_skip_test (ctx : PkgCtx) (fuel : Nat) (e : List String)
    (rawE xs ys : List (List String)) (hnone : lookupFQN ctx.gs e = none) :
    resolveAllExports ctx fuel rawE (xs ++ e :: ys) = resolveAllExports ctx fuel rawE (xs ++ ys) := by
  unfold resolveAllExports
  cases hr : resolveExportsLoop ctx fuel rawE [] [] with
  | error err => rfl
  | ok q =>
    obtain ⟨ex, tex0⟩ := q
    show Except.ok (ex, resolveTestExportsLoop ctx.gs (xs ++ e :: ys) tex0) =
      Except.ok (ex, resolveTestExportsLoop ctx.gs (xs ++ ys) tex0)
    rw [resolveTestExportsLoop_skip ctx.gs e ys hnone xs tex0]

/-- C6.  A declared export name-path (production or test) that does
not resolve to an existing symbol is silently skipped: the whole
generation run produces exactly the outputs it would produce without
that entry — no error is raised and the unresolved entry contributes
nothing to any stub or manifest. -/
theorem rbiGen_c6_unresolved_export_skipped (ctx : PkgCtx) (fuel : Nat) (e : List String)
    (rawE rawT xs ys : List (List String))
    (hnone : lookupFQN ctx.gs e = none) :
    exporterEmit ctx fuel (xs ++ e :: ys) rawT = exporterEmit ctx fuel (xs ++ ys) rawT ∧
    exporterEmit ctx fuel rawE (xs ++ e :: ys) = exporterEmit ctx fuel rawE (xs ++ ys) := by
  constructor
  · unfold exporterEmit
    rw [resolveAllExports_skip_prod ctx fuel e rawT xs ys hnone]
  · unfold exporterEmit
    rw [resolveAllExports_skip_test ctx fuel e rawE xs ys hnone]

/-- Witness for C6 on the demo graph: the unresolvable path `Missing`
changes nothing, whether it appears among the production exports or
the test exports. -/
theorem rbiGen_c6_unresolved_export_skipped_witness :
    exporterEmit ctxDemo 30 ([] ++ ["Missing"] :: [["Foo", "X"]]) [] =
      exporterEmit ctxDemo 30 ([] ++ [["Foo", "X"]]) [] ∧
    exporterEmit ctxDemo 30 [["Test", "Foo", "E"]] ([] ++ ["Missing"] :: [["Foo", "X"]]) =
      exporterEmit ctxDemo 30 [["Test", "Foo", "E"]] ([] ++ [["Foo", "X"]]) :=
  rbiGen_c6_unresolved_export_skipped ctxDemo 30 ["Missing"]
    [["Test", "Foo", "E"]] [] [] [["Foo", "X"]] rfl


/-! ## Monotone growth of the shared dependency accumulators -/

theorem expLE_refl (st : ExpState) : expLE st st :=
  ⟨fun _ h => h, fun _ h => h, fun _ h => h⟩

theorem expLE_trans {a b c : ExpState} (h1 : expLE a b) (h2 : expLE b c) : expLE a c :=
  ⟨fun p hp => h2.1 p (h1.1 p hp), fun f hf => h2.2.1 f (h1.2.1 f hf),
   fun s hs => h2.2.2 s (h1.2.2 s hs)⟩

theorem pkgState_expLE (ctx : PkgCtx) (o : Sym) (st : ExpState) :
    ∀ r, expLE st (pkgState ctx r o st)
  | .inPkgProd => expLE_refl st
  | .inPkgTest => expLE_refl st
  | .foreign p => ⟨fun q hq => mapInsert_keys_mono p o hq, fun f hf => hf, fun s hs => hs⟩
  | .unpackaged => by
    simp only [pkgState]
    split
    · exact ⟨fun q hq => hq, fun f hf => setInsert_mono _ hf, fun s hs => hs⟩
    · exact expLE_refl st

theorem isInPackage_expLE (ctx : PkgCtx) (fuel : Nat) (s o : Sym) (st : ExpState)
    (b : Bool) (st1 : ExpState) (h : isInPackage ctx fuel s o st = .ok (b, st1)) :
    expLE st st1 := by
  rw [isInPackage_eq_walk] at h
  cases hw : ownerWalk ctx fuel s with
  | error e =>
    rw [hw] at h
    simp [Except.map] at h
  | ok r =>
    rw [hw] at h
    simp only [Except.map, Except.ok.injEq, Prod.mk.injEq] at h
    rw [← h.2]
    exact pkgState_expLE ctx o st r

theorem maybeEmit_expLE (ctx : PkgCtx) :
    ∀ (fuel : Nat) (s : Sym) (st st1 : ExpState), maybeEmit ctx fuel s st = .ok st1 →
      expLE st st1
  | 0, s, st, st1, h => by simp [maybeEmit] at h
  | fuel + 1, s, st, st1, h => by
    rw [maybeEmit] at h
    by_cases hsing : (ctx.gs.isClassOrModule s && ctx.gs.isSingletonClass s) = true
    · rw [if_pos hsing] at h
      exact maybeEmit_expLE ctx fuel (ctx.gs.attachedClass s) st st1 h
    · rw [if_neg hsing] at h
      by_cases hvis : st.emittedSymbols.contains s = true
      · rw [if_pos hvis] at h
        cases h
        exact expLE_refl st
      · rw [if_neg hvis] at h
        cases hip : isInPackage ctx fuel s s st with
        | error e => rw [hip] at h; cases h
        | ok q =>
          obtain ⟨b, stx⟩ := q
          rw [hip] at h
          have hle := isInPackage_expLE ctx fuel s s st b stx hip
          cases b
          · cases h
            exact hle
          · cases h
            exact expLE_trans hle ⟨fun q hq => hq, fun f hf => hf, fun y hy => symInsert_mono s hy⟩

theorem maybeEmitAll_expLE (ctx : PkgCtx) (fuel : Nat) :
    ∀ (rs : List Sym) (st st1 : ExpState), maybeEmitAll ctx fuel rs st = .ok st1 →
      expLE st st1
  | [], st, st1, h => by
    cases h
    exact expLE_refl st
  | r :: rest, st, st1, h => by
    rw [maybeEmitAll] at h
    cases hm : maybeEmit ctx fuel r st with
    | error e => rw [hm] at h; cases h
    | ok stm =>
      rw [hm] at h
      exact expLE_trans (maybeEmit_expLE ctx fuel r st stm hm)
        (maybeEmitAll_expLE ctx fuel rest stm st1 h)

theorem emitMethodEntry_expLE (ctx : PkgCtx) (fuel : Nat) (s : Sym) (st st1 : ExpState)
    (ds : List Sym) (h : emitMethodEntry ctx fuel s st = .ok (st1, ds)) : expLE st st1 := by
  rw [emitMethodEntry] at h
  by_cases hvis : st.emittedSymbols.contains s = true
  · rw [if_pos hvis] at h
    cases h
    exact expLE_refl st
  · rw [if_neg hvis] at h
    by_cases hsi : ctx.gs.nameIsStaticInit s = true
    · rw [if_pos hsi] at h
      cases h
      exact expLE_refl st
    · rw [if_neg hsi] at h
      simp only at h
      have hstep : expLE st { st with emittedSymbols := symInsert st.emittedSymbols s } :=
        ⟨fun q hq => hq, fun f hf => hf, fun y hy => symInsert_mono s hy⟩
      by_cases hlt : ctx.gs.nameStartsWithLt s = true
      · rw [if_pos hlt] at h
        cases h
        exact hstep
      · rw [if_neg hlt] at h
        cases hdel : tryEmitDefDelegator (ctx.gs.argNames s) (ctx.gs.showName s) with
        | invalidDelegator => rw [hdel] at h; cases h
        | emitted line =>
          rw [hdel] at h
          cases h
          exact hstep
        | notDelegator =>
          rw [hdel] at h
          cases hall : maybeEmitAll ctx fuel (ctx.gs.refs s)
              { st with emittedSymbols := symInsert st.emittedSymbols s } with
          | error e => rw [hall] at h; cases h
          | ok st2 =>
            rw [hall] at h
            cases h
            exact expLE_trans hstep (maybeEmitAll_expLE ctx fuel (ctx.gs.refs s) _ _ hall)

theorem emitOne_cases (ctx : PkgCtx) (fuel : Nat) (s : Sym) (st st1 : ExpState)
    (ds : List Sym) (h : emitOne ctx fuel s st = .ok (st1, ds)) :
    (∃ b stx, ctx.gs.kind s = SymKind.classOrModule ∧
      isInPackage ctx fuel s s st = .ok (b, stx) ∧
      (!b || !stx.emittedSymbols.contains s) = false ∧
      ((st1 = stx ∧ ds = [] ∧
        (ctx.gs.superClass (ctx.gs.superClass s) = ctx.gs.tEnum ∨
         ctx.gs.nameStartsWithLt s = true)) ∨
       (maybeEmitAll ctx fuel (ctx.gs.refs s) stx = .ok st1 ∧ ds = [s]))) ∨
    (ctx.gs.kind s = SymKind.method ∧ emitMethodEntry ctx fuel s st = .ok (st1, ds)) ∨
    (ctx.gs.kind s = SymKind.fieldOrStaticField ∧
      maybeEmitAll ctx fuel (ctx.gs.refs s) st = .ok st1 ∧ ds = [s]) ∨
    ((ctx.gs.kind s = SymKind.typeMember ∨ ctx.gs.kind s = SymKind.typeArgument) ∧
      st1 = st ∧ ds = []) := by
  unfold emitOne at h
  split at h
  · -- classOrModule
    rename_i hk
    split at h
    · cases h
    · rename_i b stx hip
      split at h
      · cases h
      · rename_i hg
        split at h
        · rename_i he
          cases h
          exact Or.inl ⟨b, _, hk, by assumption, Bool.of_not_eq_true hg,
            Or.inl ⟨rfl, rfl, Or.inl he⟩⟩
        · rename_i he
          split at h
          · rename_i hlt
            cases h
            exact Or.inl ⟨b, _, hk, by assumption, Bool.of_not_eq_true hg,
              Or.inl ⟨rfl, rfl, Or.inr hlt⟩⟩
          · rename_i hlt
            split at h
            · cases h
            · cases h
              exact Or.inl ⟨b, stx, hk, hip, Bool.of_not_eq_true hg,
                Or.inr ⟨by assumption, rfl⟩⟩
  · rename_i hk
    exact Or.inr (Or.inl ⟨hk, h⟩)
  · rename_i hk
    split at h
    · cases h
    · cases h
      exact Or.inr (Or.inr (Or.inl ⟨hk, by assumption, rfl⟩))
  · rename_i hk
    cases h
    exact Or.inr (Or.inr (Or.inr ⟨Or.inl hk, rfl, rfl⟩))
  · rename_i hk
    cases h
    exact Or.inr (Or.inr (Or.inr ⟨Or.inr hk, rfl, rfl⟩))

theorem emitOne_expLE (ctx : PkgCtx) (fuel : Nat) (s : Sym) (st st1 : ExpState)
    (ds : List Sym) (h : emitOne ctx fuel s st = .ok (st1, ds)) : expLE st st1 := by
  rcases emitOne_cases ctx fuel s st st1 ds h with
    ⟨b, stx, _, hip, _, hrest⟩ | ⟨_, hm⟩ | ⟨_, hall, _⟩ | ⟨_, hst, _⟩
  · have hle := isInPackage_expLE ctx fuel s s st b stx hip
    rcases hrest with ⟨hst, _, _⟩ | ⟨hall, _⟩
    · exact hst ▸ hle
    · exact expLE_trans hle (maybeEmitAll_expLE ctx fuel (ctx.gs.refs s) stx st1 hall)
  · exact emitMethodEntry_expLE ctx fuel s st st1 ds hm
  · exact maybeEmitAll_expLE ctx fuel (ctx.gs.refs s) st st1 hall
  · exact hst ▸ expLE_refl st

theorem emitLoop_expLE (ctx : PkgCtx) :
    ∀ (fuel : Nat) (st : ExpState) (acc : List Sym) (st4 : ExpState) (decls : List Sym),
      emitLoop ctx fuel st acc = .ok (st4, decls) → expLE st st4
  | 0, st, acc, st4, decls, h => by simp [emitLoop] at h
  | fuel + 1, st, acc, st4, decls, h => by
    rw [emitLoop] at h
    cases hl : st.toEmit.getLast? with
    | none =>
      simp only [hl] at h
      cases h
      exact expLE_refl st
    | some s =>
      simp only [hl] at h
      cases ho : emitOne ctx fuel s { st with toEmit := st.toEmit.dropLast } with
      | error e =>
        simp only [ho] at h
        cases h
      | ok q =>
        obtain ⟨st1, ds⟩ := q
        simp only [ho] at h
        have h0 : expLE st { st with toEmit := st.toEmit.dropLast } :=
          ⟨fun q hq => hq, fun f hf => hf, fun y hy => hy⟩
        exact expLE_trans h0 (expLE_trans (emitOne_expLE ctx fuel s _ st1 ds ho)
          (emitLoop_expLE ctx fuel st1 (acc ++ ds) st4 decls h))

/-! ## Inverting the production and test phases -/

theorem prodPhase_inv (ctx : PkgCtx) (fuel : Nat) (exports : List Sym) (stP : ExpState)
    (rbi : Option (List Sym)) (deps : Option (List Sym × List FileRef))
    (h : prodPhase ctx fuel exports = .ok (stP, rbi, deps)) :
    (exports.isEmpty = true ∧ stP = initExpState ∧ rbi = none ∧ deps = none) ∨
    (∃ st1 decls, exports.isEmpty = false ∧
      maybeEmitAll ctx fuel exports initExpState = .ok st1 ∧
      emitLoop ctx fuel st1 [] = .ok (stP, decls) ∧
      rbi = some decls ∧ deps = some (manifestOf stP)) := by
  unfold prodPhase at h
  by_cases he : exports.isEmpty = true
  · rw [if_pos he] at h
    cases h
    exact Or.inl ⟨he, rfl, rfl, rfl⟩
  · rw [if_neg he] at h
    cases hma : maybeEmitAll ctx fuel exports initExpState with
    | error e =>
      simp only [hma] at h
      cases h
    | ok st1 =>
      simp only [hma] at h
      cases hel : emitLoop ctx fuel st1 [] with
      | error e =>
        simp only [hel] at h
        cases h
      | ok q =>
        obtain ⟨st2, decls⟩ := q
        simp only [hel] at h
        cases h
        exact Or.inr ⟨st1, decls, Bool.not_eq_true _ ▸ Bool.of_not_eq_true he, rfl, hel, rfl, rfl⟩

theorem testPhase_inv (ctx : PkgCtx) (fuel : Nat) (tex : List Sym) (st stF : ExpState)
    (tRbi : Option (List Sym)) (tDeps : Option (List Sym × List FileRef))
    (h : testPhase ctx fuel tex st = .ok (stF, tRbi, tDeps)) :
    (tex.isEmpty = true ∧ stF = st ∧ tRbi = none ∧ tDeps = none) ∨
    (∃ st3 tdecls, tex.isEmpty = false ∧ maybeEmitAll ctx fuel tex st = .ok st3 ∧
      emitLoop ctx fuel st3 [] = .ok (stF, tdecls) ∧
      ((tdecls.isEmpty = true ∧ tRbi = none ∧ tDeps = none) ∨
       (tdecls.isEmpty = false ∧ tRbi = some tdecls ∧ tDeps = some (manifestOf stF)))) := by
  unfold testPhase at h
  by_cases he : tex.isEmpty = true
  · rw [if_pos he] at h
    cases h
    exact Or.inl ⟨he, rfl, rfl, rfl⟩
  · rw [if_neg he] at h
    cases hma : maybeEmitAll ctx fuel tex st with
    | error e =>
      simp only [hma] at h
      cases h
    | ok st3 =>
      simp only [hma] at h
      cases hel : emitLoop ctx fuel st3 [] with
      | error e =>
        simp only [hel] at h
        cases h
      | ok q =>
        obtain ⟨st4, tdecls⟩ := q
        simp only [hel] at h
        by_cases ht : tdecls.isEmpty = true
        · rw [if_pos ht] at h
          cases h
          exact Or.inr ⟨st3, tdecls, Bool.not_eq_true _ ▸ Bool.of_not_eq_true he, rfl, hel,
            Or.inl ⟨ht, rfl, rfl⟩⟩
        · rw [if_neg ht] at h
          cases h
          exact Or.inr ⟨st3, tdecls, Bool.not_eq_true _ ▸ Bool.of_not_eq_true he, rfl, hel,
            Or.inr ⟨Bool.not_eq_true _ ▸ Bool.of_not_eq_true ht, rfl, rfl⟩⟩

theorem exporterEmit_inv (ctx : PkgCtx) (fuel : Nat) (rawE rawT : List (List String))
    (out : RBIOutput) (h : exporterEmit ctx fuel rawE rawT = .ok out) :
    ∃ ex tex stP stF,
      resolveAllExports ctx fuel rawE rawT = .ok (ex, tex) ∧
      prodPhase ctx fuel ex = .ok (stP, out.rbi, out.deps) ∧
      testPhase ctx fuel tex stP = .ok (stF, out.testRBI, out.testDeps) := by
  unfold exporterEmit at h
  cases hra : resolveAllExports ctx fuel rawE rawT with
  | error e =>
    simp only [hra] at h
    cases h
  | ok q =>
    obtain ⟨ex, tex⟩ := q
    simp only [hra] at h
    cases hp : prodPhase ctx fuel ex with
    | error e =>
      simp only [hp] at h
      cases h
    | ok q2 =>
      obtain ⟨stP, rbi, deps⟩ := q2
      simp only [hp] at h
      cases ht : testPhase ctx fuel tex stP with
      | error e =>
        simp only [ht] at h
        cases h
      | ok q3 =>
        obtain ⟨stF, tRbi, tDeps⟩ := q3
        simp only [ht] at h
        cases h
        exact ⟨ex, tex, stP, stF, rfl, hp, ht⟩


/-! ## Claim C10: the test manifest extends the production manifest -/

/-- C10.  The dependency accumulators (`referencedPackages`,
`referencedRBIs`) are shared between the production and test passes
and never reset, and every operation only inserts; hence whenever a
run produces both a production manifest and a test manifest, every
package reference and every legacy-stub file reference of the
production manifest also appears in the test manifest. -/
theorem rbiGen_c10_test_manifest_superset (ctx : PkgCtx) (fuel : Nat)
    (rawE rawT : List (List String)) (out : RBIOutput)
    (pm tm : List Sym × List FileRef)
    (hrun : exporterEmit ctx fuel rawE rawT = .ok out)
    (hdeps : out.deps = some pm) (htdeps : out.testDeps = some tm) :
    (∀ p ∈ pm.1, p ∈ tm.1) ∧ (∀ f ∈ pm.2, f ∈ tm.2) := by
  obtain ⟨ex, tex, stP, stF, hra, hp, ht⟩ := exporterEmit_inv ctx fuel rawE rawT out hrun
  rcases prodPhase_inv ctx fuel ex stP out.rbi out.deps hp with
    ⟨_, _, _, hdn⟩ | ⟨st1, decls, _, hma, hel, _, hdeq⟩
  · rw [hdn] at hdeps
    cases hdeps
  · rcases testPhase_inv ctx fuel tex stP stF out.testRBI out.testDeps ht with
      ⟨_, _, _, htn⟩ | ⟨st3, tdecls, _, hma2, hel2, hcap⟩
    · rw [htn] at htdeps
      cases htdeps
    · rcases hcap with ⟨_, _, htn⟩ | ⟨_, _, hteq⟩
      · rw [htn] at htdeps
        cases htdeps
      · rw [hdeq] at hdeps
        rw [hteq] at htdeps
        injection hdeps with hpm
        injection htdeps with htm
        have hle := expLE_trans (maybeEmitAll_expLE ctx fuel tex stP st3 hma2)
          (emitLoop_expLE ctx fuel st3 [] stF tdecls hel2)
        subst hpm
        subst htm
        exact ⟨fun q hq => hle.1 q hq, fun f hf => hle.2.1 f hf⟩

/-- Witness for C10 on the demo graph: a run with production export
`Foo::X` (pulling in the foreign package `Bar`) and test export
`Test::Foo::E` produces manifests `([4], [])` for both passes, and the
theorem instantiates to the inclusion of the production pair in the
test pair. -/
theorem rbiGen_c10_test_manifest_superset_witness :
    (∀ p ∈ (([4], []) : List Sym × List FileRef).1, p ∈ (([4], []) : List Sym × List FileRef).1) ∧
    (∀ f ∈ (([4], []) : List Sym × List FileRef).2, f ∈ (([4], []) : List Sym × List FileRef).2) :=
  rbiGen_c10_test_manifest_superset ctxDemo 30 [["Foo", "X"]] [["Test", "Foo", "E"]]
    ⟨some [7], some ([4], []), some [9], some ([4], [])⟩ ([4], []) ([4], []) rfl rfl rfl


/-! ## Fuel irrelevance of the ownership walk -/

theorem ownerWalk_mono (ctx : PkgCtx) :
    ∀ (fuel : Nat) (s : Sym) (r : WalkRes), ownerWalk ctx fuel s = .ok r →
      ownerWalk ctx (fuel + 1) s = .ok r
  | 0, s, r, h => by simp [ownerWalk] at h
  | fuel + 1, s, r, h => by
    rw [ownerWalk] at h
    rw [ownerWalk]
    by_cases h1 : s = ctx.gs.root ∨ s = ctx.gs.packageRegistry
    · rw [if_pos h1] at h
      rw [if_pos h1]
      exact h
    · rw [if_neg h1] at h
      rw [if_neg h1]
      by_cases h2 : s = ctx.pkgNamespace
      · rw [if_pos h2] at h
        rw [if_pos h2]
        exact h
      · rw [if_neg h2] at h
        rw [if_neg h2]
        by_cases h3 : s = ctx.pkgTestNamespace
        · rw [if_pos h3] at h
          rw [if_pos h3]
          exact h
        · rw [if_neg h3] at h
          rw [if_neg h3]
          by_cases h4 : (ctx.gs.isClassOrModule s && ctx.pkgNamespaces.contains s) = true
          · rw [if_pos h4] at h
            rw [if_pos h4]
            exact h
          · rw [if_neg h4] at h
            rw [if_neg h4]
            exact ownerWalk_mono ctx fuel (ctx.gs.owner s) r h

theorem ownerWalk_le (ctx : PkgCtx) {s : Sym} {r : WalkRes} {f f1 : Nat} (hle : f ≤ f1)
    (h : ownerWalk ctx f s = .ok r) : ownerWalk ctx f1 s = .ok r := by
  induction hle with
  | refl => exact h
  | step _ ih => exact ownerWalk_mono ctx _ s r ih

theorem ownerWalk_agree (ctx : PkgCtx) {s : Sym} {r r1 : WalkRes} {f f1 : Nat}
    (h : ownerWalk ctx f s = .ok r) (h1 : ownerWalk ctx f1 s = .ok r1) : r = r1 := by
  rcases Nat.le_total f f1 with hle | hle
  · have h2 := ownerWalk_le ctx hle h
    rw [h2] at h1
    exact Except.ok.inj h1
  · have h2 := ownerWalk_le ctx hle h1
    rw [h2] at h
    exact (Except.ok.inj h).symm

/-! ## A test-namespace symbol offered to the test pass is enqueued
and rendered -/

theorem maybeEmit_test_enqueues (ctx : PkgCtx) (f fw : Nat) (e : Sym) (st st1 : ExpState)
    (hsing : (ctx.gs.isClassOrModule e && ctx.gs.isSingletonClass e) = false)
    (hne : e ∉ st.emittedSymbols)
    (hw : ownerWalk ctx fw e = .ok .inPkgTest)
    (h : maybeEmit ctx f e st = .ok st1) :
    e ∈ st1.toEmit ∧ e ∈ st1.emittedSymbols := by
  cases f with
  | zero => simp [maybeEmit] at h
  | succ f =>
    rw [maybeEmit] at h
    have hs1 : ¬((ctx.gs.isClassOrModule e && ctx.gs.isSingletonClass e) = true) := by
      simp [hsing]
    have hv : ¬(st.emittedSymbols.contains e = true) :=
      fun hc => hne ((contains_mem _ e).mp hc)
    rw [if_neg hs1, if_neg hv] at h
    cases hip : isInPackage ctx f e e st with
    | error er =>
      rw [hip] at h
      cases h
    | ok q =>
      obtain ⟨b, stx⟩ := q
      rw [hip] at h
      rw [isInPackage_eq_walk] at hip
      cases hw2 : ownerWalk ctx f e with
      | error er =>
        rw [hw2] at hip
        simp [Except.map] at hip
      | ok r =>
        rw [hw2] at hip
        simp only [Except.map, Except.ok.injEq, Prod.mk.injEq] at hip
        have hr := ownerWalk_agree ctx hw2 hw
        subst hr
        obtain ⟨hb, hstx⟩ := hip
        rw [← hb] at h
        simp only [pkgBool] at h
        cases h
        constructor
        · simp
        · exact symInsert_self _ e

theorem maybeEmitAll_test_mem (ctx : PkgCtx) (fuel fw : Nat) (e : Sym)
    (hsing : (ctx.gs.isClassOrModule e && ctx.gs.isSingletonClass e) = false)
    (hw : ownerWalk ctx fw e = .ok .inPkgTest) :
    ∀ (rs : List Sym) (st st3 : ExpState), maybeEmitAll ctx fuel rs st = .ok st3 →
      e ∈ rs → (e ∈ st.toEmit ∨ e ∉ st.emittedSymbols) → e ∈ st3.toEmit
  | [], st, st3, _, hmem, _ => by simp at hmem
  | r :: rest, st, st3, h, hmem, hinv => by
    rw [maybeEmitAll] at h
    cases hm : maybeEmit ctx fuel r st with
    | error er =>
      rw [hm] at h
      cases h
    | ok stm =>
      rw [hm] at h
      rcases hinv with htoe | hnem
      · exact (maybeEmitAll_state ctx fuel rest stm st3 h).2.1 e
          (maybeEmit_toEmit_mono ctx hm htoe)
      · rcases List.mem_cons.mp hmem with heq | hrest
        · subst heq
          obtain ⟨h1, _⟩ := maybeEmit_test_enqueues ctx fuel fw e st stm hsing hnem hw hm
          exact (maybeEmitAll_state ctx fuel rest stm st3 h).2.1 e h1
        · by_cases hm2 : e ∈ stm.emittedSymbols
          · exact (maybeEmitAll_state ctx fuel rest stm st3 h).2.1 e
              ((maybeEmit_state ctx fuel r st stm hm).2.2 e hnem hm2)
          · exact maybeEmitAll_test_mem ctx fuel fw e hsing hw rest stm st3 h hrest (Or.inr hm2)

/-! ## Behaviour of `emitOne` and `emitLoop` needed for the export
partition -/

theorem emitOne_toEmit_mono (ctx : PkgCtx) (fuel : Nat) (s : Sym) (st st1 : ExpState)
    (ds : List Sym) (h : emitOne ctx fuel s st = .ok (st1, ds)) :
    ∀ y ∈ st.toEmit, y ∈ st1.toEmit := by
  rcases emitOne_cases ctx fuel s st st1 ds h with
    ⟨b, stx, _, hip, _, hrest⟩ | ⟨_, hm⟩ | ⟨_, hall, _⟩ | ⟨_, hst, _⟩
  · have hpres := isInPackage_preserves ctx fuel s s st b stx hip
    rcases hrest with ⟨hst, _, _⟩ | ⟨hall, _⟩
    · intro y hy
      rw [hst, hpres.2]
      exact hy
    · intro y hy
      refine (maybeEmitAll_state ctx fuel (ctx.gs.refs s) stx st1 hall).2.1 y ?_
      rw [hpres.2]
      exact hy
  · exact (emitMethodEntry_state ctx fuel s st st1 ds hm).2.1
  · exact (maybeEmitAll_state ctx fuel (ctx.gs.refs s) st st1 hall).2.1
  · intro y hy
    rw [hst]
    exact hy

theorem emitOne_inv (ctx : PkgCtx) (fuel : Nat) (s : Sym) (st st1 : ExpState)
    (ds : List Sym) (h : emitOne ctx fuel s st = .ok (st1, ds)) (hi : InvE st) : InvE st1 := by
  rcases emitOne_cases ctx fuel s st st1 ds h with
    ⟨b, stx, _, hip, _, hrest⟩ | ⟨_, hm⟩ | ⟨_, hall, _⟩ | ⟨_, hst, _⟩
  · have hpres := isInPackage_preserves ctx fuel s s st b stx hip
    have hix : InvE stx := by
      constructor
      · rw [hpres.2]
        exact hi.1
      · intro y hy
        rw [hpres.1]
        refine hi.2 y ?_
        rw [← hpres.2]
        exact hy
    rcases hrest with ⟨hst, _, _⟩ | ⟨hall, _⟩
    · rw [hst]
      exact hix
    · exact (maybeEmitAll_state ctx fuel (ctx.gs.refs s) stx st1 hall).2.2.1 hix
  · exact (emitMethodEntry_state ctx fuel s st st1 ds hm).2.2.1 hi
  · exact (maybeEmitAll_state ctx fuel (ctx.gs.refs s) st st1 hall).2.2.1 hi
  · rw [hst]
    exact hi

theorem emitOne_ds (ctx : PkgCtx) (fuel : Nat) (s : Sym) (st st1 : ExpState)
    (ds : List Sym) (h : emitOne ctx fuel s st = .ok (st1, ds)) : ds = [] ∨ ds = [s] := by
  rcases emitOne_cases ctx fuel s st st1 ds h with
    ⟨b, stx, _, _, _, hrest⟩ | ⟨_, hm⟩ | ⟨_, _, hds⟩ | ⟨_, _, hds⟩
  · rcases hrest with ⟨_, hds, _⟩ | ⟨_, hds⟩
    · exact Or.inl hds
    · exact Or.inr hds
  · rcases (emitMethodEntry_state ctx fuel s st st1 ds hm).2.2.2 with hds | ⟨hds, _⟩
    · exact Or.inl hds
    · exact Or.inr hds
  · exact Or.inr hds
  · exact Or.inl hds

theorem emitOne_decl_emitted (ctx : PkgCtx) (fuel : Nat) (s : Sym) (st st1 : ExpState)
    (ds : List Sym) (h : emitOne ctx fuel s st = .ok (st1, ds))
    (hs : s ∈ st.emittedSymbols) : ∀ y ∈ ds, y ∈ st1.emittedSymbols := by
  intro y hy
  rcases emitOne_ds ctx fuel s st st1 ds h with hds | hds
  · rw [hds] at hy
    simp at hy
  · rw [hds] at hy
    rw [List.mem_singleton.mp hy]
    exact (emitOne_expLE ctx fuel s st st1 ds h).2.2 s hs

theorem emitOne_class_decl (ctx : PkgCtx) (fuel : Nat) (s : Sym) (st st1 : ExpState)
    (ds : List Sym) (h : emitOne ctx fuel s st = .ok (st1, ds))
    (hk : ctx.gs.kind s = SymKind.classOrModule)
    (he : ctx.gs.superClass (ctx.gs.superClass s) ≠ ctx.gs.tEnum)
    (hlt : ctx.gs.nameStartsWithLt s = false) : ds = [s] := by
  rcases emitOne_cases ctx fuel s st st1 ds h with
    ⟨b, stx, _, _, _, hrest⟩ | ⟨hk2, _⟩ | ⟨hk2, _, _⟩ | ⟨hk2, _, _⟩
  · rcases hrest with ⟨_, _, hskip⟩ | ⟨_, hds⟩
    · rcases hskip with hen | hl2
      · exact absurd hen he
      · rw [hlt] at hl2
        cases hl2
    · exact hds
  · rw [hk] at hk2
    cases hk2
  · rw [hk] at hk2
    cases hk2
  · rcases hk2 with hk2 | hk2 <;> (rw [hk] at hk2; cases hk2)

theorem emitLoop_acc_sub (ctx : PkgCtx) :
    ∀ (fuel : Nat) (st : ExpState) (acc : List Sym) (st4 : ExpState) (decls : List Sym),
      emitLoop ctx fuel st acc = .ok (st4, decls) → ∀ y ∈ acc, y ∈ decls
  | 0, st, acc, st4, decls, h => by simp [emitLoop] at h
  | fuel + 1, st, acc, st4, decls, h => by
    rw [emitLoop] at h
    cases hl : st.toEmit.getLast? with
    | none =>
      simp only [hl] at h
      cases h
      exact fun y hy => hy
    | some s =>
      simp only [hl] at h
      cases ho : emitOne ctx fuel s { st with toEmit := st.toEmit.dropLast } with
      | error e =>
        simp only [ho] at h
        cases h
      | ok q =>
        obtain ⟨st1, ds⟩ := q
        simp only [ho] at h
        intro y hy
        exact emitLoop_acc_sub ctx fuel st1 (acc ++ ds) st4 decls h y
          (List.mem_append.mpr (Or.inl hy))

theorem emitLoop_complete (ctx : PkgCtx) :
    ∀ (fuel : Nat) (st : ExpState) (acc : List Sym) (st4 : ExpState) (decls : List Sym),
      emitLoop ctx fuel st acc = .ok (st4, decls) →
      ∀ y ∈ st.toEmit, ctx.gs.kind y = SymKind.classOrModule →
        ctx.gs.superClass (ctx.gs.superClass y) ≠ ctx.gs.tEnum →
        ctx.gs.nameStartsWithLt y = false → y ∈ decls
  | 0, st, acc, st4, decls, h => by simp [emitLoop] at h
  | fuel + 1, st, acc, st4, decls, h => by
    rw [emitLoop] at h
    cases hl : st.toEmit.getLast? with
    | none =>
      intro y hy _ _ _
      rw [List.getLast?_eq_none_iff.mp hl] at hy
      simp at hy
    | some s =>
      simp only [hl] at h
      cases ho : emitOne ctx fuel s { st with toEmit := st.toEmit.dropLast } with
      | error e =>
        simp only [ho] at h
        cases h
      | ok q =>
        obtain ⟨st1, ds⟩ := q
        simp only [ho] at h
        intro y hy hk he hlt
        have hsplit : st.toEmit.dropLast ++ [s] = st.toEmit :=
          List.dropLast_append_getLast? s hl
        rw [← hsplit] at hy
        rcases List.mem_append.mp hy with hy1 | hy2
        · have hy3 : y ∈ st1.toEmit :=
            emitOne_toEmit_mono ctx fuel s { st with toEmit := st.toEmit.dropLast } st1 ds ho
              y hy1
          exact emitLoop_complete ctx fuel st1 (acc ++ ds) st4 decls h y hy3 hk he hlt
        · rw [List.mem_singleton.mp hy2]
          rw [List.mem_singleton.mp hy2] at hk he hlt
          have hds := emitOne_class_decl ctx fuel s _ st1 ds ho hk he hlt
          refine emitLoop_acc_sub ctx fuel st1 (acc ++ ds) st4 decls h s ?_
          rw [hds]
          simp

theorem emitLoop_decls_emitted (ctx : PkgCtx) :
    ∀ (fuel : Nat) (st : ExpState) (acc : List Sym) (st4 : ExpState) (decls : List Sym),
      emitLoop ctx fuel st acc = .ok (st4, decls) → InvE st →
      (∀ y ∈ acc, y ∈ st.emittedSymbols) → ∀ y ∈ decls, y ∈ st4.emittedSymbols
  | 0, st, acc, st4, decls, h => by simp [emitLoop] at h
  | fuel + 1, st, acc, st4, decls, h => by
    rw [emitLoop] at h
    cases hl : st.toEmit.getLast? with
    | none =>
      simp only [hl] at h
      cases h
      exact fun hi hacc y hy => hacc y hy
    | some s =>
      simp only [hl] at h
      cases ho : emitOne ctx fuel s { st with toEmit := st.toEmit.dropLast } with
      | error e =>
        simp only [ho] at h
        cases h
      | ok q =>
        obtain ⟨st1, ds⟩ := q
        simp only [ho] at h
        intro hi hacc
        have hi0 : InvE { st with toEmit := st.toEmit.dropLast } := by
          constructor
          · exact hi.1.sublist (List.dropLast_sublist st.toEmit)
          · intro y hy
            exact hi.2 y ((List.dropLast_sublist st.toEmit).subset hy)
        have hsmem : s ∈ st.toEmit := by
          rw [← List.dropLast_append_getLast? s hl]
          simp
        have hse : s ∈ st.emittedSymbols := hi.2 s hsmem
        have hmono := (emitOne_expLE ctx fuel s _ st1 ds ho).2.2
        refine emitLoop_decls_emitted ctx fuel st1 (acc ++ ds) st4 decls h
          (emitOne_inv ctx fuel s _ st1 ds ho hi0) ?_
        intro y hy
        rcases List.mem_append.mp hy with hy1 | hy2
        · exact hmono y (hacc y hy1)
        · exact emitOne_decl_emitted ctx fuel s _ st1 ds ho hse y hy2


/-! ## Claim C9: export partition between the production and test
passes -/

/-- Counterexample to C9 as stated.  On the demo graph the production
export `Foo::Z` (symbol 11) references the test-namespace class
`Test::Foo::E` (symbol 9) from its rendered declaration.  The resolved
export 9 is routed to the test export set (`isInTestPackage` is true),
yet the production closure accepts it (`isInPackage` also accepts the
test namespace), so its declaration lands in the production stub
`[11, 9]`; the test pass then finds everything already visited, prints
nothing, and no test stub or manifest is produced at all.  The
test-owned export symbol therefore appears in the production stub and
not in any test artifact, contradicting the claim. -/
theorem rbiGen_c9_counterexample :
    exporterEmit ctxDemo 30 [["Foo", "Z"], ["Test", "Foo", "E"]] [] =
      .ok ⟨some [11, 9], some ([], []), none, none⟩ ∧
    isInTestPackage ctxDemo 30 9 = .ok true ∧
    (9 : Sym) ∈ [11, 9] :=
  ⟨rfl, rfl, by simp⟩

/-- C9 (amended).  (1) Routing: a production-export name path that
resolves to a symbol on which `isInTestPackage` answers true is routed
to the test export list, not the production one.  (2) Capture order:
the production stub and manifest of a successful run are exactly the
outputs of the production phase alone, computed before any test
export is enqueued.  (3) Partition: a test export symbol that the
production closure did not reach (it is not in the visited set the
production phase left behind) appears in the test stub and not in the
production stub — the amendment is the reachability proviso, forced by
the counterexample, plus the structural side conditions making the
symbol a renderable class. -/
theorem rbiGen_c9_test_export_partition :
    (∀ (ctx : PkgCtx) (fuel : Nat) (p : List String) (rest : List (List String))
        (ex tex : List Sym) (e : Sym),
      lookupFQN ctx.gs p = some e → isInTestPackage ctx fuel e = .ok true →
      resolveExportsLoop ctx fuel (p :: rest) ex tex =
        resolveExportsLoop ctx fuel rest ex (tex ++ [e])) ∧
    (∀ (ctx : PkgCtx) (fuel : Nat) (rawE rawT : List (List String)) (out : RBIOutput),
      exporterEmit ctx fuel rawE rawT = .ok out →
      ∃ ex tex stP, resolveAllExports ctx fuel rawE rawT = .ok (ex, tex) ∧
        prodPhase ctx fuel ex = .ok (stP, out.rbi, out.deps)) ∧
    (∀ (ctx : PkgCtx) (fuel fw : Nat) (ex tex : List Sym) (stP stF : ExpState)
        (rbi tRbi : Option (List Sym)) (deps tDeps : Option (List Sym × List FileRef))
        (e : Sym),
      prodPhase ctx fuel ex = .ok (stP, rbi, deps) →
      testPhase ctx fuel tex stP = .ok (stF, tRbi, tDeps) →
      e ∈ tex → e ∉ stP.emittedSymbols →
      ctx.gs.kind e = SymKind.classOrModule →
      (ctx.gs.isClassOrModule e && ctx.gs.isSingletonClass e) = false →
      ownerWalk ctx fw e = .ok .inPkgTest →
      ctx.gs.superClass (ctx.gs.superClass e) ≠ ctx.gs.tEnum →
      ctx.gs.nameStartsWithLt e = false →
      (∀ d, rbi = some d → e ∉ d) ∧ (∃ td, tRbi = some td ∧ e ∈ td)) := by
  refine ⟨?_, ?_, ?_⟩
  · intro ctx fuel p rest ex tex e hl ht
    simp only [resolveExportsLoop, hl, ht]
  · intro ctx fuel rawE rawT out hrun
    obtain ⟨ex, tex, stP, stF, hra, hp, ht⟩ := exporterEmit_inv ctx fuel rawE rawT out hrun
    exact ⟨ex, tex, stP, hra, hp⟩
  · intro ctx fuel fw ex tex stP stF rbi tRbi deps tDeps e hp ht hmem hne hk hsing hw he hlt
    constructor
    · intro d hd
      rcases prodPhase_inv ctx fuel ex stP rbi deps hp with
        ⟨_, _, hrn, _⟩ | ⟨st1, decls, _, hma, hel, hreq, _⟩
      · rw [hrn] at hd
        cases hd
      · rw [hreq] at hd
        injection hd with hd
        subst hd
        intro hin
        have hinv1 : InvE initExpState := ⟨List.nodup_nil, by simp [initExpState]⟩
        have hsub := emitLoop_decls_emitted ctx fuel st1 [] stP decls hel
          ((maybeEmitAll_state ctx fuel ex initExpState st1 hma).2.2.1 hinv1)
          (by simp)
        exact hne (hsub e hin)
    · rcases testPhase_inv ctx fuel tex stP stF tRbi tDeps ht with
        ⟨hemp, _, _, _⟩ | ⟨st3, tdecls, _, hma2, hel2, hcap⟩
      · rw [List.isEmpty_iff.mp hemp] at hmem
        simp at hmem
      · have hq : e ∈ st3.toEmit :=
          maybeEmitAll_test_mem ctx fuel fw e hsing hw tex stP st3 hma2 hmem (Or.inr hne)
        have hdmem : e ∈ tdecls :=
          emitLoop_complete ctx fuel st3 [] stF tdecls hel2 e hq hk he hlt
        rcases hcap with ⟨hemp2, _, _⟩ | ⟨_, hteq, _⟩
        · rw [List.isEmpty_iff.mp hemp2] at hdmem
          simp at hdmem
        · exact ⟨tdecls, hteq, hdmem⟩

/-- Witness for the amended C9, instantiating all three parts on the
demo graph: the test-owned export `Test::Foo::E` (symbol 9) is routed
to the test list; the production pair of the run with exports
`Foo::X` / test `Test::Foo::E` is exactly the production phase's; and
symbol 9, unreached by that production pass, appears in the test stub
`[9]` and not in the production stub `[7]`. -/
theorem rbiGen_c9_test_export_partition_witness :
    (resolveExportsLoop ctxDemo 30 [["Test", "Foo", "E"]] [7] [] =
      resolveExportsLoop ctxDemo 30 [] [7] ([] ++ [9])) ∧
    (∃ ex tex stP,
      resolveAllExports ctxDemo 30 [["Foo", "X"]] [["Test", "Foo", "E"]] = .ok (ex, tex) ∧
      prodPhase ctxDemo 30 ex = .ok (stP, some [7], some ([4], []))) ∧
    (∀ d, (some [7] : Option (List Sym)) = some d → (9 : Sym) ∉ d) ∧
    (∃ td, (some [9] : Option (List Sym)) = some td ∧ (9 : Sym) ∈ td) := by
  refine ⟨?_, ?_, ?_⟩
  · exact rbiGen_c9_test_export_partition.1 ctxDemo 30 ["Test", "Foo", "E"] [] [7] [] 9 rfl rfl
  · exact rbiGen_c9_test_export_partition.2.1 ctxDemo 30 [["Foo", "X"]] [["Test", "Foo", "E"]]
      ⟨some [7], some ([4], []), some [9], some ([4], [])⟩ rfl
  · exact rbiGen_c9_test_export_partition.2.2 ctxDemo 30 5 [7] [9]
      { emittedSymbols := [7], referencedPackages := [(4, 8)], referencedRBIs := [], toEmit := [] }
      { emittedSymbols := [7, 9], referencedPackages := [(4, 8)], referencedRBIs := [], toEmit := [] }
      (some [7]) (some [9]) (some ([4], [])) (some ([4], [])) 9
      rfl rfl (by simp) (by simp) rfl rfl rfl (by decide) rfl

end RBIGen
